import Mathlib

/-!
# Verification of the lark-sync core against its specification

Shallow embedding of the `lark_sync` Python package:

* `src/lark_sync/sync/state.py`    — hashing with line-ending normalization,
  `SyncMapping` / `SyncState` data model;
* `src/lark_sync/sync/differ.py`   — `SyncDiffer.has_local_changes` /
  `has_remote_changes`;
* `src/lark_sync/sync/conflict.py` — `ConflictType`, `ConflictDetector.detect`;
* `src/lark_sync/converter/text_elements.py` — `parse_inline_markdown` and its
  regex-based inline scanner;
* `src/lark_sync/converter/lark_to_markdown.py` — tree reconstruction and the
  render dispatch (`_build_tree`, `_root_children`, `_render_block`);
* `src/lark_sync/converter/markdown_to_lark.py` — `_reverse_lang_lookup`;
* `src/lark_sync/sync/engine.py`   — `SyncEngine.sync_to_lark`,
  `_create_blocks_with_nesting`, `_create_table_block`,
  `_clear_document_blocks`.

Python strings are modelled as `List Char` (sequences of Unicode scalar
values); the external SHA-256 digest (`hashlib.sha256(...).hexdigest()`) is an
uninterpreted parameter `sha : List Char → String`, since the hashing
primitive itself lives outside the repository.  The local filesystem is a map
`String → Option (List Char)` from paths to file contents (`none` = the file
does not exist).
-/

namespace LarkSync

/-! ## Line-ending normalization and content hashing (`sync/state.py`)

`compute_content_hash` / `compute_file_hash` run
`content.replace("\r\n", "\n").replace("\r", "\n")` before hashing.
`str.replace` substitutes every non-overlapping occurrence left to right; on
character lists the two passes are the recursions below. -/
/-- First pass of the normalization: `content.replace("\r\n", "\n")` —
every non-overlapping occurrence of CR-LF, left to right, becomes LF. -/
def replaceCRLF : List Char → List Char
  | [] => []
  | [c] => [c]
  | c :: d :: rest =>
    if c = '\r' ∧ d = '\n' then '\n' :: replaceCRLF rest
    else c :: replaceCRLF (d :: rest)

/-- Second pass of the normalization: `content.replace("\r", "\n")`. -/
def replaceCR : List Char → List Char
  | [] => []
  | c :: rest => (if c = '\r' then '\n' else c) :: replaceCR rest

/-- Normalization composite: `normalized = content.replace("\r\n", "\n").replace("\r", "\n")`
(`state.py`, used by both `compute_file_hash` and `compute_content_hash`). -/
def normalizeLineEndings (content : List Char) : List Char :=
  replaceCR (replaceCRLF content)

/-- Model of `compute_content_hash` (`state.py` lines 67-77): SHA-256 of the
newline-normalized content.  `sha` stands for
`hashlib.sha256(s.encode()).hexdigest()`. -/
def compute_content_hash (sha : List Char → String) (content : List Char) : String :=
  sha (normalizeLineEndings content)

/-- Model of `compute_file_hash` (`state.py` lines 47-64): reads the file then hashes
its newline-normalized content.  `none` when the file does not exist (the
Python function raises `FileNotFoundError`; every caller in scope checks
existence first). -/
def compute_file_hash (sha : List Char → String) (fs : String → Option (List Char))
    (path : String) : Option String :=
  (fs path).map (fun content => compute_content_hash sha content)

/-! ## Sync state data model (`sync/state.py`) -/
/-- Model of `SyncDirection` (`state.py`). -/
inductive SyncDirection where
  | BIDIRECTIONAL
  | TO_LARK
  | FROM_LARK
deriving DecidableEq, Repr

/-- Model of `SyncMapping` (`state.py` lines 26-37).  `datetime` timestamps are
abstracted to `Nat`. -/
structure SyncMapping where
  local_path : String
  lark_document_id : String
  lark_document_url : String := ""
  lark_wiki_space_id : Option String := none
  lark_wiki_node_token : Option String := none
  last_synced_at : Option Nat := none
  local_hash_at_sync : String := ""
  remote_revision_at_sync : Int := 0
  sync_direction : SyncDirection := SyncDirection.BIDIRECTIONAL
deriving DecidableEq, Repr

/-- Model of `SyncState` (`state.py` lines 40-44). -/
structure SyncState where
  version : Nat := 1
  mappings : List SyncMapping := []
deriving DecidableEq, Repr

/-! ## Change detection (`sync/differ.py`) -/
/-- Model of `SyncDiffer.has_local_changes` (`differ.py` lines 21-48): `False` if the
file no longer exists; `True` if no prior hash was recorded (empty string is
falsy); else `True` iff the current file hash differs from the stored one. -/
def has_local_changes (sha : List Char → String) (fs : String → Option (List Char))
    (mapping : SyncMapping) : Bool :=
  match fs mapping.local_path with
  | none => false
  | some content =>
    if mapping.local_hash_at_sync = "" then true
    else decide (compute_content_hash sha content ≠ mapping.local_hash_at_sync)

/-- Model of `SyncDiffer.has_remote_changes` (`differ.py` lines 50-69): `True` if no
revision was ever recorded (stored revision `= 0`), else `True` iff the
current revision is strictly greater than the stored one. -/
def has_remote_changes (mapping : SyncMapping) (current_revision : Int) : Bool :=
  if mapping.remote_revision_at_sync = 0 then true
  else decide (current_revision > mapping.remote_revision_at_sync)

/-! ## Conflict classification (`sync/conflict.py`) -/
/-- Model of `ConflictType` (`conflict.py` lines 16-22). -/
inductive ConflictType where
  | NONE
  | LOCAL_ONLY
  | REMOTE_ONLY
  | BOTH_CHANGED
deriving DecidableEq, Repr

/-- Model of `ConflictDetector.detect` (`conflict.py` lines 35-60). -/
def detect (sha : List Char → String) (fs : String → Option (List Char))
    (mapping : SyncMapping) (current_revision : Int) : ConflictType :=
  let local_changed := has_local_changes sha fs mapping
  let remote_changed := has_remote_changes mapping current_revision
  if local_changed && remote_changed then ConflictType.BOTH_CHANGED
  else if local_changed then ConflictType.LOCAL_ONLY
  else if remote_changed then ConflictType.REMOTE_ONLY
  else ConflictType.NONE

/-! ## Line-ending conventions, for stating the hash-stability claim.

Two strings "differ only in line endings" when they are the same logical
lines joined with different line-ending conventions (`\r\n`, lone `\r`, or
`\n`). -/
/-- One of the three line-ending conventions. -/
inductive LineEnding where
  | lf
  | cr
  | crlf
deriving DecidableEq, Repr

/-- The character sequence of a line ending. -/
def endingChars : LineEnding → List Char
  | .lf => ['\n']
  | .cr => ['\r']
  | .crlf => ['\r', '\n']

/-- Join logical lines with a uniform line-ending convention
(the semantics of `ending.join(lines)`). -/
def joinLines (e : LineEnding) : List (List Char) → List Char
  | [] => []
  | [l] => l
  | l :: l₂ :: rest => l ++ endingChars e ++ joinLines e (l₂ :: rest)

/-- A line has no embedded line-break characters. -/
abbrev NoBreak (l : List Char) : Prop := ∀ c ∈ l, c ≠ '\r' ∧ c ≠ '\n'

/-! ## Helper constructors and concrete instances for the claim theorems -/
/-- A `SyncMapping` carrying only the fields relevant to change detection;
the remaining fields take the model defaults of `state.py`. -/
def mkMapping (path storedHash : String) (storedRev : Int) : SyncMapping :=
  { local_path := path
    lark_document_id := "doc"
    local_hash_at_sync := storedHash
    remote_revision_at_sync := storedRev }

/-- A concrete stand-in digest function for witnesses. -/
def shaW : List Char → String :=
  fun cs => if cs = ['a'] then "h1" else "h2"

/-- A concrete two-file filesystem for witnesses. -/
def fsW : String → Option (List Char) :=
  fun p => if p = "p1" then some ['a'] else if p = "p2" then some ['b'] else none

/-! ## Inline text elements (`converter/text_elements.py`)

A Lark `TextElement` dict
`{"text_run": {"content": c, "text_element_style": {...}}}` is flattened
into a structure.  `parse_inline_markdown` scans its input with the
alternation `_INLINE_PATTERN` (bold-italic, bold, italic, strikethrough,
inline code, link — in that priority order, each with a lazy inner
quantifier) via `finditer`: the leftmost match wins, the scan resumes after
each match, and the inner text of every non-code match is recursively
decoded with the outer style merged onto each produced element. -/
/-- A `TextElement` dict with a `text_run` payload. -/
structure TextElement where
  content : List Char
  bold : Bool := false
  italic : Bool := false
  strikethrough : Bool := false
  inline_code : Bool := false
  link : Option (List Char) := none
deriving DecidableEq, Repr

/-- Model of `_make_text_element` (`text_elements.py` lines 195-219).  The `link` key
is present only when `link_url` is truthy (non-`None`, nonempty). -/
def _make_text_element (content : List Char)
    (bold italic strikethrough inline_co : Bool)
    (link_url : Option (List Char)) : TextElement :=
  { content := content
    bold := bold
    italic := italic
    strikethrough := strikethrough
    inline_code := inline_co
    link := match link_url with
      | some u => if u = [] then none else some u
      | none => none }

/-- Model of `_merge_style` (`text_elements.py` lines 222-242): set each style flag
that is passed as true, and overwrite the link when a truthy URL is given. -/
def _merge_style (element : TextElement)
    (bold italic strikethrough inline_co : Bool)
    (link_url : Option (List Char)) : TextElement :=
  { element with
    bold := if bold then true else element.bold
    italic := if italic then true else element.italic
    strikethrough := if strikethrough then true else element.strikethrough
    inline_code := if inline_co then true else element.inline_code
    link := match link_url with
      | some u => if u = [] then element.link else some u
      | none => element.link }

/-- Which alternative of `_INLINE_PATTERN` matched (the link alternative
also captures the URL). -/
inductive InlineKind where
  | boldItalic
  | bold
  | italic
  | strikethrough
  | inlineCode
  | link (url : List Char)
deriving DecidableEq, Repr

/-- One regex match: the matched alternative, the inner captured text, and
the remainder of the input after the match. -/
structure InlineMatch where
  kind : InlineKind
  inner : List Char
  rest : List Char
deriving DecidableEq, Repr

/-- Lazy `X*?` followed by the literal `close`: the shortest (possibly
empty) prefix of characters satisfying `allowed` after which `close`
occurs.  Returns the captured prefix and the remainder after `close`. -/
def lazyStar (allowed : Char → Bool) (close : List Char) :
    List Char → Option (List Char × List Char)
  | [] =>
    if close.isPrefixOf ([] : List Char) then some ([], ([] : List Char).drop close.length)
    else none
  | c :: rest =>
    if close.isPrefixOf (c :: rest) then some ([], (c :: rest).drop close.length)
    else if allowed c then
      (lazyStar allowed close rest).map (fun p => (c :: p.1, p.2))
    else none

/-- Lazy `X+?` followed by the literal `close`: like `lazyStar` but the
captured prefix must be nonempty. -/
def lazyPlus (allowed : Char → Bool) (close : List Char) (cs : List Char) :
    Option (List Char × List Char) :=
  match cs with
  | [] => none
  | c :: rest =>
    if allowed c then
      (lazyStar allowed close rest).map (fun p => (c :: p.1, p.2))
    else none

/-- Alternative `` \*\*\*(?P<bi_text>.+?)\*\*\* `` (`.` does not match a newline). -/
def tryBoldItalic (cs : List Char) : Option InlineMatch :=
  if ['*', '*', '*'].isPrefixOf cs then
    (lazyPlus (fun c => c != '\n') ['*', '*', '*'] (cs.drop 3)).map
      (fun p => ⟨InlineKind.boldItalic, p.1, p.2⟩)
  else none

/-- Alternative `` \*\*(?P<b_text>.+?)\*\* ``. -/
def tryBold (cs : List Char) : Option InlineMatch :=
  if ['*', '*'].isPrefixOf cs then
    (lazyPlus (fun c => c != '\n') ['*', '*'] (cs.drop 2)).map
      (fun p => ⟨InlineKind.bold, p.1, p.2⟩)
  else none

/-- Alternative `` \*(?P<i_text>.+?)\* ``. -/
def tryItalic (cs : List Char) : Option InlineMatch :=
  if ['*'].isPrefixOf cs then
    (lazyPlus (fun c => c != '\n') ['*'] (cs.drop 1)).map
      (fun p => ⟨InlineKind.italic, p.1, p.2⟩)
  else none

/-- Alternative `` ~~(?P<s_text>.+?)~~ ``. -/
def tryStrikethrough (cs : List Char) : Option InlineMatch :=
  if ['~', '~'].isPrefixOf cs then
    (lazyPlus (fun c => c != '\n') ['~', '~'] (cs.drop 2)).map
      (fun p => ⟨InlineKind.strikethrough, p.1, p.2⟩)
  else none

/-- Alternative `` \x60(?P<c_text>[^\x60]+?)\x60 `` (backtick-delimited inline code). -/
def tryInlineCode (cs : List Char) : Option InlineMatch :=
  match cs with
  | [] => none
  | c :: rest =>
    if c = '\x60' then
      (lazyPlus (fun x => x != '\x60') ['\x60'] rest).map
        (fun p => ⟨InlineKind.inlineCode, p.1, p.2⟩)
    else none

/-- Alternative `` \[(?P<l_text>[^\]]*?)\]\((?P<l_url>[^)]+?)\) ``. -/
def tryLink (cs : List Char) : Option InlineMatch :=
  match cs with
  | [] => none
  | c :: rest =>
    if c = '[' then
      match lazyStar (fun x => x != ']') [']'] rest with
      | some (text, r₁) =>
        match r₁ with
        | [] => none
        | d :: r₂ =>
          if d = '(' then
            match lazyPlus (fun x => x != ')') [')'] r₂ with
            | some (url, r₃) => some ⟨InlineKind.link url, text, r₃⟩
            | none => none
          else none
      | none => none
    else none

/-- Try `_INLINE_PATTERN` anchored at the start of `cs`: the alternatives in
the pattern's priority order. -/
def matchAt (cs : List Char) : Option InlineMatch :=
  (tryBoldItalic cs).orElse fun _ =>
  (tryBold cs).orElse fun _ =>
  (tryItalic cs).orElse fun _ =>
  (tryStrikethrough cs).orElse fun _ =>
  (tryInlineCode cs).orElse fun _ =>
  tryLink cs

/-- Plain text accumulated between matches becomes one plain element (the
`if plain:` / `if trailing:` guards drop empty segments). -/
def flushPlain (acc : List Char) : List TextElement :=
  if acc = [] then [] else [_make_text_element acc false false false false none]

/-! The recursion of `parse_inline_markdown` is fuelled so that every
function is structurally recursive and kernel-computable; `2·|text| + 2`
fuel is sufficient and the entry point below supplies it
(`fuel_stable` proves the result is fuel-independent beyond that bound). -/
mutual

/-- Body of `parse_inline_markdown` (`text_elements.py` lines 116-188):
empty input gives `[]`; otherwise scan; if nothing matched at all, the
whole string becomes one plain element. -/
def parseGo : Nat → List Char → List TextElement
  | 0, _ => []
  | fuel + 1, cs =>
    if cs = [] then []
    else
      let elements := loopGo fuel cs []
      if elements = [] then [_make_text_element cs false false false false none]
      else elements

/-- The `finditer` loop: at each position try the pattern; on a match flush
pending plain text, emit the match's elements, and resume after it;
otherwise the character joins the pending plain run. -/
def loopGo : Nat → List Char → List Char → List TextElement
  | 0, _, _ => []
  | fuel + 1, cs, acc =>
    match matchAt cs with
    | some m => flushPlain acc ++ emitGo fuel m ++ loopGo fuel m.rest []
    | none =>
      match cs with
      | [] => flushPlain acc
      | c :: rest => loopGo fuel rest (acc ++ [c])

/-- Emission per matched alternative: non-code matches recursively decode
the inner text and merge the outer style (or link URL) onto every produced
element; inline code becomes a single literal element. -/
def emitGo : Nat → InlineMatch → List TextElement
  | 0, _ => []
  | fuel + 1, m =>
    match m.kind with
    | InlineKind.boldItalic =>
      (ensureGo fuel m.inner).map (fun child => _merge_style child true true false false none)
    | InlineKind.bold =>
      (ensureGo fuel m.inner).map (fun child => _merge_style child true false false false none)
    | InlineKind.italic =>
      (ensureGo fuel m.inner).map (fun child => _merge_style child false true false false none)
    | InlineKind.strikethrough =>
      (ensureGo fuel m.inner).map (fun child => _merge_style child false false true false none)
    | InlineKind.inlineCode =>
      [_make_text_element m.inner false false false true none]
    | InlineKind.link url =>
      (ensureGo fuel m.inner).map (fun child => _merge_style child false false false false (some url))

/-- Model of `_ensure_elements` (`text_elements.py` lines 245-250): recursively parse,
guaranteeing at least one element. -/
def ensureGo : Nat → List Char → List TextElement
  | 0, _ => []
  | fuel + 1, t =>
    let result := parseGo fuel t
    if result = [] then [_make_text_element t false false false false none] else result

end

/-- Entry point `parse_inline_markdown` (`text_elements.py` lines 116-188). -/
def parse_inline_markdown (text : List Char) : List TextElement :=
  parseGo (2 * text.length + 2) text

/-- Version of `_ensure_elements` at the canonical entry point. -/
def _ensure_elements (text : List Char) : List TextElement :=
  let result := parse_inline_markdown text
  if result = [] then [_make_text_element text false false false false none] else result

/-- The `finditer` loop from a fresh position with no pending plain text,
at the canonical sufficient fuel. -/
def scanFrom (cs : List Char) : List TextElement :=
  loopGo (2 * cs.length + 1) cs []

/-! ## Code-language lookup (`converter/markdown_to_lark.py`)

`_consume_code` reads the fence info string (already `.strip()`-ped), and
`_reverse_lang_lookup` resolves it: empty → `1` (plaintext); otherwise the
lowercased, stripped form is looked up in `_REVERSE_LANG_MAP`, defaulting to
that lowercased, stripped string itself. -/
/-- Either a Lark language enum integer or a passthrough string
(the `int | str` return type of `_reverse_lang_lookup`). -/
inductive LangValue where
  | int (n : Nat)
  | str (s : List Char)
deriving DecidableEq, Repr

/-- Whitespace characters stripped by Python `str.strip()` (ASCII range). -/
def isPyWhitespace (c : Char) : Bool :=
  c = ' ' || c = '\t' || c = '\n' || c = '\r' || c = '\x0b' || c = '\x0c'

/-- Python `str.strip()`: drop whitespace from both ends. -/
def pyStrip (s : List Char) : List Char :=
  ((s.dropWhile isPyWhitespace).reverse.dropWhile isPyWhitespace).reverse

/-- Python `str.lower()` (the language tags in scope are ASCII). -/
def pyLower (s : List Char) : List Char :=
  s.map Char.toLower

/-- Table `_REVERSE_LANG_MAP` (`markdown_to_lark.py` lines 473-561). -/
def _REVERSE_LANG_MAP : List (String × Nat) :=
  [("plaintext", 1), ("abap", 2), ("ada", 3), ("apache", 4), ("apex", 5),
   ("assembly", 6), ("bash", 7), ("sh", 7), ("shell", 60), ("c", 8),
   ("c#", 9), ("csharp", 9), ("cs", 9), ("c++", 10), ("cpp", 10),
   ("cobol", 11), ("css", 12), ("coffeescript", 13), ("d", 14), ("dart", 15),
   ("delphi", 16), ("django", 17), ("dockerfile", 18), ("elixir", 19),
   ("erlang", 20), ("fortran", 21), ("foxpro", 22), ("go", 23), ("golang", 23),
   ("groovy", 24), ("html", 25), ("haskell", 26), ("http", 27), ("json", 28),
   ("java", 29), ("javascript", 30), ("js", 30), ("julia", 31), ("kotlin", 32),
   ("kt", 32), ("latex", 33), ("tex", 33), ("lisp", 34), ("logo", 35),
   ("lua", 36), ("matlab", 37), ("makefile", 38), ("make", 38),
   ("markdown", 39), ("md", 39), ("nginx", 40), ("objective-c", 41),
   ("objc", 41), ("openedgeabl", 42), ("perl", 43), ("php", 44),
   ("pl/sql", 45), ("plsql", 45), ("powershell", 46), ("ps1", 46),
   ("prolog", 47), ("protobuf", 48), ("proto", 48), ("python", 49),
   ("py", 49), ("r", 50), ("rpg", 51), ("ruby", 52), ("rb", 52),
   ("rust", 53), ("rs", 53), ("sas", 54), ("scss", 55), ("sql", 56),
   ("scala", 57), ("scheme", 58), ("scratch", 59), ("swift", 61),
   ("thrift", 62), ("typescript", 63), ("ts", 63), ("vbscript", 64),
   ("visual-basic", 65), ("vb", 65), ("xml", 66), ("yaml", 67), ("yml", 67)]

/-- Dictionary lookup `_REVERSE_LANG_MAP.get(key)` (keys are distinct). -/
def lookupLang (key : List Char) : Option Nat :=
  (_REVERSE_LANG_MAP.find? (fun kv => kv.1.toList == key)).map (fun kv => kv.2)

/-- Model of `_reverse_lang_lookup` (`markdown_to_lark.py` lines 564-569). -/
def _reverse_lang_lookup (language : List Char) : LangValue :=
  if language = [] then LangValue.int 1
  else
    let lower := pyStrip (pyLower language)
    match lookupLang lower with
    | some n => LangValue.int n
    | none => LangValue.str lower

/-! ## Flat-block tree reconstruction (`converter/lark_to_markdown.py`)

`LarkToMarkdownConverter.convert` indexes the flat block list by id
(`_build_tree`, a dict comprehension: a later duplicate id overwrites an
earlier one), picks the ordered root ids (`_root_children`: the first
PAGE block's `children`, else every block whose `parent_id` is not in the
index) and renders each root recursively (`_render_block`).

`WBlock` keeps the fields that determine the structure and the visit
order: `block_id`, `block_type`, `parent_id`, `children` (the wire format
carries child ids), and the table body's `property.row_size` /
`property.column_size` (`.get(..., 0)` defaults).  `visitGo` is the
visit-order instrumentation of the render recursion: it returns the ids of
the blocks resolved and rendered, in rendering order — list items, todos,
quote-containers, callouts and the page recurse into `children`; a table
renders its first `rows × cols` cell refs and each cell's children; all
other kinds render no child blocks. -/
/-- Model of `BlockType` (`block_types.py`), with `from_value` below as the
fallback resolution. -/
inductive BlockType where
  | PAGE
  | TEXT
  | HEADING1
  | HEADING2
  | HEADING3
  | HEADING4
  | HEADING5
  | HEADING6
  | HEADING7
  | HEADING8
  | HEADING9
  | BULLET
  | ORDERED
  | CODE
  | QUOTE
  | TODO
  | BITABLE
  | CALLOUT
  | DIVIDER
  | FILE
  | GRID
  | GRID_COLUMN
  | IFRAME
  | IMAGE
  | SHEET
  | TABLE
  | TABLE_CELL
  | VIEW
  | QUOTE_CONTAINER
  | UNDEFINED
deriving DecidableEq, Repr

/-- Value table of the `BlockType` enum (`block_types.py` lines 15-44). -/
def blockTypeTable : List (Nat × BlockType) :=
  [(1, BlockType.PAGE), (2, BlockType.TEXT), (3, BlockType.HEADING1),
   (4, BlockType.HEADING2), (5, BlockType.HEADING3), (6, BlockType.HEADING4),
   (7, BlockType.HEADING5), (8, BlockType.HEADING6), (9, BlockType.HEADING7),
   (10, BlockType.HEADING8), (11, BlockType.HEADING9), (12, BlockType.BULLET),
   (13, BlockType.ORDERED), (14, BlockType.CODE), (15, BlockType.QUOTE),
   (17, BlockType.TODO), (18, BlockType.BITABLE), (19, BlockType.CALLOUT),
   (22, BlockType.DIVIDER), (23, BlockType.FILE), (24, BlockType.GRID),
   (25, BlockType.GRID_COLUMN), (26, BlockType.IFRAME), (27, BlockType.IMAGE),
   (30, BlockType.SHEET), (31, BlockType.TABLE), (32, BlockType.TABLE_CELL),
   (33, BlockType.VIEW), (34, BlockType.QUOTE_CONTAINER)]

/-- Model of `BlockType.from_value` (`block_types.py` lines 78-84): resolve
an integer through the enum's value table, falling back to `UNDEFINED`. -/
def BlockType.from_value (v : Nat) : BlockType :=
  match blockTypeTable.find? (fun kv => kv.1 == v) with
  | some kv => kv.2
  | none => BlockType.UNDEFINED

/-- A flat wire block (`GET /blocks` shape), restricted to the fields that
determine structure and visit order. -/
structure WBlock where
  block_id : String
  block_type : Nat
  parent_id : Option String := none
  children : List String := []
  tableRowSize : Nat := 0
  tableColSize : Nat := 0
deriving DecidableEq, Repr

/-- Model of `LarkToMarkdownConverter._build_tree`: the id → block dict (a
later duplicate overwrites an earlier one, hence the reversed search). -/
def _build_tree (blocks : List WBlock) (bid : String) : Option WBlock :=
  blocks.reverse.find? (fun b => b.block_id == bid)

/-- Membership of a declared parent id in the index (`in set(tree)`;
a `None` parent is never a member). -/
def _in_index (blocks : List WBlock) (pid : Option String) : Bool :=
  match pid with
  | none => false
  | some s => blocks.any (fun b => b.block_id == s)

/-- Model of `LarkToMarkdownConverter._root_children` (`lark_to_markdown.py`
lines 56-82): the first PAGE block's `children`, else the ids of blocks
whose declared parent is not in the index. -/
def _root_children (blocks : List WBlock) : List String :=
  match blocks.find? (fun b => BlockType.from_value b.block_type == BlockType.PAGE) with
  | some b => b.children
  | none =>
    (blocks.filter (fun b => !(_in_index blocks b.parent_id))).map (fun b => b.block_id)

/-- Visit-order instrumentation of `_render_block`: the ids of the blocks
resolved and rendered below (and including) one child reference, in
rendering order.  Fuelled: the Python recursion terminates on the
tree-shaped inputs the API returns, and `convert` below supplies fuel
`|blocks| + 1`, enough for any cycle-free input. -/
def visitGo (blocks : List WBlock) : Nat → String → List String
  | 0, _ => []
  | fuel + 1, ref =>
    match _build_tree blocks ref with
    | none => []
    | some b =>
      b.block_id ::
        (match BlockType.from_value b.block_type with
          | BlockType.PAGE => b.children.flatMap (visitGo blocks fuel)
          | BlockType.BULLET => b.children.flatMap (visitGo blocks fuel)
          | BlockType.ORDERED => b.children.flatMap (visitGo blocks fuel)
          | BlockType.TODO => b.children.flatMap (visitGo blocks fuel)
          | BlockType.QUOTE_CONTAINER => b.children.flatMap (visitGo blocks fuel)
          | BlockType.CALLOUT => b.children.flatMap (visitGo blocks fuel)
          | BlockType.TABLE =>
            if b.tableRowSize = 0 ∨ b.tableColSize = 0 then []
            else
              (b.children.take (b.tableRowSize * b.tableColSize)).flatMap (fun cref =>
                match _build_tree blocks cref with
                | none => []
                | some cell =>
                  cell.block_id ::
                    cell.children.filterMap (fun tref =>
                      (_build_tree blocks tref).map (fun t => t.block_id)))
          | _ => [])

/-- Visit order of `LarkToMarkdownConverter.convert`: each root id in order,
recursively. -/
def convertVisits (blocks : List WBlock) : List String :=
  (_root_children blocks).flatMap (visitGo blocks (blocks.length + 1))

/-- The page block of the C5 family: children `[a, b]`. -/
def pageB : WBlock := { block_id := "p", block_type := 1, children := ["a", "b"] }

/-- Block `a` of the C5 family: childless, of kind `ka`. -/
def aB (ka : Nat) : WBlock := { block_id := "a", block_type := ka, parent_id := some "p" }

/-- Block `b` of the C5 family: kind `kb`, children `[c]`. -/
def bB (kb : Nat) : WBlock :=
  { block_id := "b", block_type := kb, parent_id := some "p", children := ["c"] }

/-- Block `c` of the C5 family: childless, of kind `kc`. -/
def cB (kc : Nat) : WBlock := { block_id := "c", block_type := kc, parent_id := some "b" }

/-- The C5 counterexample input: `b` is a plain TEXT block (kind 2), whose
handler does not recurse into children. -/
def cexBlocks : List WBlock := [pageB, aB 2, bB 2, cB 2]

/-! ## Push materialization and orchestration (`sync/engine.py`)

`SyncEngine.sync_to_lark` and its helpers are embedded as pure functions
over an oracle of remote responses (`ClientEnv` / `BlocksEnv`) and an
explicit call state (`CallState`) that records the ordered trace of remote
operations issued (`ROp`) plus per-endpoint call counters used to consume
the oracle's successive responses.  An `Except.error` models a raised
exception; where the engine catches one, the embedding continues, and
where it does not, the error propagates as the function's result.

The engine's injected converters are parameters (`conv` for
`MarkdownToLarkConverter.convert`); the project-local state discovery of
`_get_state_manager` is specialized to the global state manager
(`project_root = None`, the identity path normalization), which is the
configuration all the claims below concern. -/
/-- A converter-produced block dict (`markdown_to_lark.py` output shape),
restricted to the keys the materializer reads: `block_type`, the
`table.property` row/column counts, the `text.elements` list (cell text),
and nested `children`. -/
inductive PBlock where
  | mk (block_type : Nat) (table : Option (Nat × Nat))
      (text : Option (List TextElement)) (children : List PBlock)

mutual

/-- Structural decidable equality for `PBlock` (the nested `List PBlock`
field defeats the automatic derivation). -/
def decEqPBlock : (a b : PBlock) → Decidable (a = b)
  | PBlock.mk t₁ ta₁ tx₁ cs₁, PBlock.mk t₂ ta₂ tx₂ cs₂ =>
    if h₁ : t₁ = t₂ then
      if h₂ : ta₁ = ta₂ then
        if h₃ : tx₁ = tx₂ then
          match decEqPBlockList cs₁ cs₂ with
          | isTrue h₄ => isTrue (by rw [h₁, h₂, h₃, h₄])
          | isFalse h₄ => isFalse (by intro h; injection h; contradiction)
        else isFalse (by intro h; injection h; contradiction)
      else isFalse (by intro h; injection h; contradiction)
    else isFalse (by intro h; injection h; contradiction)

/-- Structural decidable equality for lists of `PBlock`. -/
def decEqPBlockList : (as bs : List PBlock) → Decidable (as = bs)
  | [], [] => isTrue rfl
  | [], _ :: _ => isFalse (by intro h; cases h)
  | _ :: _, [] => isFalse (by intro h; cases h)
  | a :: as, b :: bs =>
    match decEqPBlock a b, decEqPBlockList as bs with
    | isTrue h₁, isTrue h₂ => isTrue (by rw [h₁, h₂])
    | isFalse h₁, _ => isFalse (by intro h; injection h; contradiction)
    | _, isFalse h₂ => isFalse (by intro h; injection h; contradiction)

end

instance : DecidableEq PBlock := decEqPBlock

/-- Field accessor for `block_type`. -/
def PBlock.block_type : PBlock → Nat
  | PBlock.mk v _ _ _ => v

/-- Field accessor for the `table.property` row/column sizes. -/
def PBlock.table : PBlock → Option (Nat × Nat)
  | PBlock.mk _ t _ _ => t

/-- Field accessor for the `text.elements` payload. -/
def PBlock.text : PBlock → Option (List TextElement)
  | PBlock.mk _ _ tx _ => tx

/-- Field accessor for `children`. -/
def PBlock.children : PBlock → List PBlock
  | PBlock.mk _ _ _ cs => cs

/-- Payload copy without the `children` key
(`{k: v for k, v in block.items() if k != "children"}`). -/
def dropChildren (b : PBlock) : PBlock :=
  PBlock.mk b.block_type b.table b.text []

/-- One remote operation issued by the engine, in trace order. -/
inductive ROp where
  | docGet (document_id : String)
  | docCreate (title : List Char) (folder : Option String)
  | listAllBlocks (document_id : String)
  | batchDelete (document_id parent_id : String) (startIndex endIndex : Nat)
  | createChildren (document_id parent_id : String) (payload : List PBlock)
  | insertTableRow (document_id table_id : String) (row_index : Nat)
  | updateColumnWidth (document_id table_id : String) (column_index width : Nat)
  | getBlock (document_id block_id : String)
  | batchUpdateText (document_id : String) (updates : List (String × List Char))
deriving DecidableEq

/-- Classifier used to count creation calls in a trace. -/
def ROp.isCreateChildren : ROp → Bool
  | ROp.createChildren _ _ _ => true
  | _ => false

/-- Classifier used to count row-insert operations in a trace. -/
def ROp.isInsertTableRow : ROp → Bool
  | ROp.insertTableRow _ _ _ => true
  | _ => false

/-- Classifier used to count batched text updates in a trace. -/
def ROp.isBatchUpdateText : ROp → Bool
  | ROp.batchUpdateText _ _ => true
  | _ => false

/-- The ordered trace of issued operations plus per-endpoint call counters
(used to consume the response oracle). -/
structure CallState where
  trace : List ROp := []
  docGetCalls : Nat := 0
  createCalls : Nat := 0
deriving DecidableEq

/-- Oracle of block-endpoint responses: the `block_id` of the first block
returned by each successive `create_children` call (`none` for an empty or
id-less response), each block's `children` ids as returned by `get_block`,
and the `(block_id, parent_id)` pairs returned by `list_all_blocks`. -/
structure BlocksEnv where
  createResults : List (Option String)
  blockChildren : String → List String
  listBlocksResult : List (String × Option String)

/-- Oracle of document-endpoint responses: successive `documents.get`
outcomes (revision id or raised error), the `documents.create` outcome, and
the block endpoints. -/
structure ClientEnv where
  docGetResults : List (Except String Int)
  docCreateResult : Except String String
  blocks : BlocksEnv

/-- Issue `self._client.documents.get(document_id)`. -/
def docGetCall (env : ClientEnv) (document_id : String) (σ : CallState) :
    Except String Int × CallState :=
  (env.docGetResults.getD σ.docGetCalls (Except.error "connection error"),
   { σ with trace := σ.trace ++ [ROp.docGet document_id],
            docGetCalls := σ.docGetCalls + 1 })

/-- Issue `self._client.documents.create(title, folder_token)`. -/
def docCreateCall (env : ClientEnv) (title : List Char) (folder : Option String)
    (σ : CallState) : Except String String × CallState :=
  (env.docCreateResult, { σ with trace := σ.trace ++ [ROp.docCreate title folder] })

/-- Issue `self._client.blocks.create_children(document_id, parent_id,
payload)`; the result is the `block_id` of the first created block, if
any. -/
def createChildrenCall (benv : BlocksEnv) (document_id parent_id : String)
    (payload : List PBlock) (σ : CallState) : Option String × CallState :=
  (benv.createResults.getD σ.createCalls none,
   { σ with trace := σ.trace ++ [ROp.createChildren document_id parent_id payload],
            createCalls := σ.createCalls + 1 })

/-- Issue `self._client.blocks.get_block(document_id, block_id)`; the result
is the block's `children` id list. -/
def getBlockCall (benv : BlocksEnv) (document_id block_id : String) (σ : CallState) :
    List String × CallState :=
  (benv.blockChildren block_id,
   { σ with trace := σ.trace ++ [ROp.getBlock document_id block_id] })

/-- Model of `SyncEngine._extract_cell_text` (`engine.py` lines 711-729):
the concatenated `text_run` contents of the first child (the TEXT block) of
the `index`-th converter table cell; empty when out of range, childless, or
without a `text` body. -/
def _extract_cell_text (children : List PBlock) (index : Nat) : List Char :=
  match children[index]? with
  | none => []
  | some cell =>
    match cell.children with
    | [] => []
    | t :: _ =>
      match t.text with
      | none => []
      | some elements => (elements.map (fun el => el.content)).flatten

/-- TEXT-child ids of the remote cells, in remote (row-major) order: the
first child of each cell per `get_block`, `""` when a cell has none. -/
def tableCellTextIds (benv : BlocksEnv) (cell_ids : List String) : List String :=
  cell_ids.map (fun cid => (benv.blockChildren cid).headD "")

/-- The batched cell-content updates: one `(text_block_id, content)` per
cell whose TEXT child exists and whose local text is non-empty, in
remote (row-major) cell order. -/
def tableCellUpdates (benv : BlocksEnv) (children : List PBlock)
    (cell_ids : List String) : List (String × List Char) :=
  (tableCellTextIds benv cell_ids).enum.filterMap (fun p =>
    if p.2 = "" then none
    else
      let cell_text := _extract_cell_text children p.1
      if cell_text = [] then none else some (p.2, cell_text))

/-- Model of `SyncEngine._create_table_block` (`engine.py` lines 548-709):
create the TABLE capped at 9 rows, append the remaining rows one by one,
set every column's width to `686 // column_count`, re-fetch the table for
its cell ids, fetch each cell's TEXT child, and issue one batched text
update covering every non-empty cell (none when every cell is empty). -/
def _create_table_block (benv : BlocksEnv) (document_id parent_block_id : String)
    (table_block : PBlock) (σ : CallState) : CallState :=
  let children := table_block.children
  let prop := table_block.table.getD (0, 0)
  let total_rows := prop.1
  let col_count := prop.2
  if total_rows = 0 ∨ col_count = 0 then σ
  else
    let initial_rows := min total_rows 9
    let create_block := PBlock.mk table_block.block_type (some (initial_rows, col_count)) none []
    match createChildrenCall benv document_id parent_block_id [create_block] σ with
    | (none, σ₁) => σ₁
    | (some table_id, σ₁) =>
      let rowOps := (List.range' initial_rows (total_rows - initial_rows)).map
        (fun idx => ROp.insertTableRow document_id table_id idx)
      let σ₂ := { σ₁ with trace := σ₁.trace ++ rowOps }
      let col_width := 686 / col_count
      let colOps := (List.range col_count).map
        (fun idx => ROp.updateColumnWidth document_id table_id idx col_width)
      let σ₃ := { σ₂ with trace := σ₂.trace ++ colOps }
      match getBlockCall benv document_id table_id σ₃ with
      | (cell_ids, σ₄) =>
        if cell_ids = [] then σ₄
        else
          let cellGetOps := cell_ids.map (fun cid => ROp.getBlock document_id cid)
          let σ₅ := { σ₄ with trace := σ₄.trace ++ cellGetOps }
          let updates := tableCellUpdates benv children cell_ids
          if updates = [] then σ₅
          else { σ₅ with trace := σ₅.trace ++ [ROp.batchUpdateText document_id updates] }

/-- Flush the pending flat sibling batch (`if flat_batch:
create_children(...)`; the response is ignored but the call still
happens). -/
def flushFlatBatch (benv : BlocksEnv) (document_id parent_block_id : String)
    (flat : List PBlock) (σ : CallState) : CallState :=
  if flat = [] then σ
  else (createChildrenCall benv document_id parent_block_id flat σ).2

/-- Loop body of `SyncEngine._create_blocks_with_nesting` (`engine.py`
lines 487-541): childless blocks accumulate into a flat batch; a container
flushes the batch and is handled specially — TABLE via
`_create_table_block`, any other container created without `children` and
recursed into under the created id (skipped when the response carries no
id). -/
def cbwnGo (benv : BlocksEnv) (document_id : String) :
    String → List PBlock → List PBlock → CallState → CallState
  | parent_block_id, [], flat, σ => flushFlatBatch benv document_id parent_block_id flat σ
  | parent_block_id, PBlock.mk bt ta tx bchildren :: rest, flat, σ =>
    if bchildren = [] then
      cbwnGo benv document_id parent_block_id rest (flat ++ [PBlock.mk bt ta tx bchildren]) σ
    else
      let σ₁ := flushFlatBatch benv document_id parent_block_id flat σ
      if BlockType.from_value bt = BlockType.TABLE then
        cbwnGo benv document_id parent_block_id rest []
          (_create_table_block benv document_id parent_block_id (PBlock.mk bt ta tx bchildren) σ₁)
      else
        match createChildrenCall benv document_id parent_block_id [PBlock.mk bt ta tx []] σ₁ with
        | (some created_id, σ₂) =>
          cbwnGo benv document_id parent_block_id rest []
            (cbwnGo benv document_id created_id bchildren [] σ₂)
        | (none, σ₂) => cbwnGo benv document_id parent_block_id rest [] σ₂
termination_by _ blocks _ _ => sizeOf blocks

/-- Model of `SyncEngine._create_blocks_with_nesting`. -/
def _create_blocks_with_nesting (benv : BlocksEnv) (document_id parent_block_id : String)
    (blocks : List PBlock) (σ : CallState) : CallState :=
  cbwnGo benv document_id parent_block_id blocks [] σ

/-- Model of `SyncEngine._clear_document_blocks` (`engine.py` lines
731-745): list all blocks, count the root's direct children, and delete
that contiguous range when nonempty. -/
def _clear_document_blocks (benv : BlocksEnv) (document_id : String)
    (σ : CallState) : CallState :=
  let σ₁ := { σ with trace := σ.trace ++ [ROp.listAllBlocks document_id] }
  let child_count := (benv.listBlocksResult.filter (fun p =>
      p.1 != document_id && p.2 == some document_id)).length
  if 0 < child_count then
    { σ₁ with trace := σ₁.trace ++ [ROp.batchDelete document_id document_id 0 child_count] }
  else σ₁

/-! ### State-manager helpers (`sync/state.py`, global manager:
`project_root = None`, so `_normalize_path` is the identity) -/
/-- Model of `SyncStateManager.get_mapping`. -/
def get_mapping (st : SyncState) (local_path : String) : Option SyncMapping :=
  st.mappings.find? (fun m => m.local_path == local_path)

/-- Model of `SyncStateManager.add_mapping`: drop any same-path entry, then
append. -/
def add_mapping (st : SyncState) (mapping : SyncMapping) : SyncState :=
  { st with mappings :=
      (st.mappings.filter (fun m => m.local_path != mapping.local_path)) ++ [mapping] }

/-- Update the first same-path mapping in place, `none` when absent. -/
def updateFirstMapping (ms : List SyncMapping) (local_path : String)
    (f : SyncMapping → SyncMapping) : Option (List SyncMapping) :=
  match ms with
  | [] => none
  | m :: rest =>
    if m.local_path == local_path then some (f m :: rest)
    else (updateFirstMapping rest local_path f).map (fun ms' => m :: ms')

/-- Model of `SyncStateManager.update_mapping`: apply the field updates to
the existing entry, raising `KeyError` when no mapping exists. -/
def update_mapping (st : SyncState) (local_path : String)
    (f : SyncMapping → SyncMapping) : Except String SyncState :=
  match updateFirstMapping st.mappings local_path f with
  | some ms => Except.ok { st with mappings := ms }
  | none => Except.error ("No mapping found for local path: " ++ local_path)

/-! ### Result model and push orchestration -/
/-- Model of `SyncResult` (`engine.py` lines 61-70). -/
structure SyncResult where
  success : Bool
  message : String
  document_id : String := ""
  document_url : String := ""
  local_path : String := ""
  conflict : ConflictType := ConflictType.NONE
  diff_summary : String := ""
deriving DecidableEq, Repr

/-- Python truthiness `a or b` on optional strings (`None` and `""` are
falsy). -/
def pyOrOptStr (a b : Option String) : Option String :=
  match a with
  | some s => if s = "" then b else some s
  | none => b

/-- The final component of a path (after the last `/`). -/
def lastComponent (p : List Char) : List Char :=
  (p.reverse.takeWhile (fun c => c != '/')).reverse

/-- Semantics of `pathlib.Path(p).stem`: the final component minus its last
extension (a leading dot does not start an extension). -/
def pathStem (p : List Char) : List Char :=
  let name := lastComponent p
  let afterDot := (name.reverse.takeWhile (fun c => c != '.')).length
  if afterDot = name.length then name
  else if name.length - afterDot - 1 = 0 then name
  else name.take (name.length - afterDot - 1)

/-- Python `str.title()`: uppercase each alphabetic character that follows
a non-alphabetic one, lowercase the rest (ASCII-cased inputs). -/
def pyTitle : List Char → List Char :=
  go false
where
  /-- Title-case scan carrying whether the previous character was
  alphabetic. -/
  go (prevAlpha : Bool) : List Char → List Char
    | [] => []
    | c :: rest =>
      (if c.isAlpha then (if prevAlpha then c.toLower else c.toUpper) else c)
        :: go c.isAlpha rest

/-- Title derivation of `sync_to_lark`:
`path.stem.replace("-", " ").replace("_", " ").title()`. -/
def deriveTitle (local_path : String) : List Char :=
  pyTitle ((pathStem local_path.toList).map
    (fun c => if c = '-' then ' ' else if c = '_' then ' ' else c))

/-- The success `SyncResult` of `sync_to_lark` (`engine.py` lines 268-274). -/
def successResult (document_id document_url local_path : String) : SyncResult :=
  { success := true
    message := "Successfully synced to Lark document " ++ document_id
    document_id := document_id
    document_url := document_url
    local_path := local_path }

/-- State bookkeeping after a successful push (`engine.py` lines 236-261):
recompute the file hash, then update the existing mapping's fields or add a
fresh `TO_LARK` mapping. -/
def finishPush (sha : List Char → String) (now : Nat) (st : SyncState)
    (local_path : String) (content : List Char) (mapping : Option SyncMapping)
    (document_id : String) (document_url : String) (wiki_space_id : Option String)
    (new_revision : Int) (σ : CallState) :
    Except String SyncResult × SyncState × CallState :=
  let current_hash := compute_content_hash sha content
  match mapping with
  | some m =>
    match update_mapping st local_path (fun mp =>
        { mp with
          lark_document_id := document_id
          lark_document_url := if document_url = "" then m.lark_document_url else document_url
          lark_wiki_space_id := pyOrOptStr wiki_space_id m.lark_wiki_space_id
          last_synced_at := some now
          local_hash_at_sync := current_hash
          remote_revision_at_sync := new_revision }) with
    | Except.ok st' =>
      (Except.ok (successResult document_id document_url local_path), st', σ)
    | Except.error e => (Except.error e, st, σ)
  | none =>
    let new_mapping : SyncMapping :=
      { local_path := local_path
        lark_document_id := document_id
        lark_document_url := document_url
        lark_wiki_space_id := wiki_space_id
        last_synced_at := some now
        local_hash_at_sync := current_hash
        remote_revision_at_sync := new_revision
        sync_direction := SyncDirection.TO_LARK }
    (Except.ok (successResult document_id document_url local_path),
     add_mapping st new_mapping, σ)

/-- Push proper (`engine.py` lines 210-274): convert the Markdown, then for
an existing document clear all child blocks and re-materialize, or create a
new document (title derived from the file name) and materialize into it;
re-fetch the revision and update the sync state.  Errors raised by the
unguarded `documents.get` / `documents.create` calls propagate. -/
def pushBody (env : ClientEnv) (conv : List Char → List PBlock)
    (sha : List Char → String) (now : Nat) (st : SyncState) (local_path : String)
    (content : List Char) (mapping : Option SyncMapping)
    (document_id : Option String) (folder_token wiki_space_id : Option String)
    (σ : CallState) : Except String SyncResult × SyncState × CallState :=
  let lark_blocks := conv content
  match document_id with
  | some d =>
    let σ₁ := _clear_document_blocks env.blocks d σ
    let σ₂ := if lark_blocks = [] then σ₁
      else _create_blocks_with_nesting env.blocks d d lark_blocks σ₁
    match docGetCall env d σ₂ with
    | (Except.error e, σ₃) => (Except.error e, st, σ₃)
    | (Except.ok new_revision, σ₃) =>
      finishPush sha now st local_path content mapping d "" wiki_space_id new_revision σ₃
  | none =>
    match docCreateCall env (deriveTitle local_path) folder_token σ with
    | (Except.error e, σ₁) => (Except.error e, st, σ₁)
    | (Except.ok d, σ₁) =>
      let σ₂ := if lark_blocks = [] then σ₁
        else _create_blocks_with_nesting env.blocks d d lark_blocks σ₁
      match docGetCall env d σ₂ with
      | (Except.error e, σ₃) => (Except.error e, st, σ₃)
      | (Except.ok new_revision, σ₃) =>
        finishPush sha now st local_path content mapping d "" wiki_space_id new_revision σ₃

/-- Model of `SyncEngine.sync_to_lark` (`engine.py` lines 161-274): abort
early when the local file is missing; resolve the document id from the
argument or the mapping; unless forced, fetch the remote revision for
conflict detection — a `BOTH_CHANGED` classification aborts with a conflict
result, and a *failed* fetch is logged and swallowed; then push. -/
def sync_to_lark (env : ClientEnv) (conv : List Char → List PBlock)
    (sha : List Char → String) (now : Nat) (st : SyncState)
    (fs : String → Option (List Char)) (local_path : String)
    (document_id folder_token wiki_space_id : Option String) (force : Bool)
    (σ : CallState) : Except String SyncResult × SyncState × CallState :=
  match fs local_path with
  | none =>
    (Except.ok { success := false
                 message := "Local file not found: " ++ local_path
                 local_path := local_path },
     st, σ)
  | some markdown_content =>
    match get_mapping st local_path with
    | some m =>
      let d := document_id.getD m.lark_document_id
      if force then
        pushBody env conv sha now st local_path markdown_content (some m) (some d)
          folder_token wiki_space_id σ
      else
        match docGetCall env d σ with
        | (Except.error _, σ₁) =>
          pushBody env conv sha now st local_path markdown_content (some m) (some d)
            folder_token wiki_space_id σ₁
        | (Except.ok current_revision, σ₁) =>
          if detect sha fs m current_revision = ConflictType.BOTH_CHANGED then
            (Except.ok { success := false
                         message := "Conflict: both local and remote have changed since the last sync. Use force=True to overwrite."
                         document_id := d
                         local_path := local_path
                         conflict := ConflictType.BOTH_CHANGED },
             st, σ₁)
          else
            pushBody env conv sha now st local_path markdown_content (some m) (some d)
              folder_token wiki_space_id σ₁
    | none =>
      pushBody env conv sha now st local_path markdown_content none document_id
        folder_token wiki_space_id σ

/-- Row-major remote cell ids of the 12×3 witness table. -/
def cellIdsW : List String := (List.range 36).map (fun i => "cell" ++ toString i)

/-- Remote responses for the 12×3 witness table: the creation returns
`"tbl"`, whose children are the 36 cells, each with one TEXT child. -/
def benvT : BlocksEnv :=
  { createResults := [some "tbl"]
    blockChildren := fun bid =>
      if bid = "tbl" then cellIdsW
      else if cellIdsW.contains bid then [bid ++ "t"] else []
    listBlocksResult := [] }

/-- A converter table cell whose TEXT child holds the content `"x"`. -/
def cellW : PBlock :=
  PBlock.mk 32 none none
    [PBlock.mk 2 none (some [_make_text_element ['x'] false false false false none]) []]

/-- The 12×3 witness table block with every cell non-empty. -/
def tbW : PBlock := PBlock.mk 31 (some (12, 3)) none (List.replicate 36 cellW)

/-- Remote responses for the all-empty 1×1 counterexample table. -/
def benvE : BlocksEnv :=
  { createResults := [some "t"]
    blockChildren := fun bid =>
      if bid = "t" then ["c0"] else if bid = "c0" then ["c0t"] else []
    listBlocksResult := [] }

/-- A 1×1 table block whose single cell's local text is empty. -/
def tbE : PBlock :=
  PBlock.mk 31 (some (1, 1)) none [PBlock.mk 32 none none [PBlock.mk 2 none (some []) []]]

/-- Concrete remote oracle for the push witnesses. -/
def envW : ClientEnv :=
  { docGetResults := []
    docCreateResult := Except.error "offline"
    blocks := { createResults := [], blockChildren := fun _ => [], listBlocksResult := [] } }

/-- The tracked mapping of the C10 witness. -/
def m0W : SyncMapping :=
  { local_path := "p1", lark_document_id := "doc1",
    local_hash_at_sync := "h1", remote_revision_at_sync := 5 }

/-- Persisted state of the C10 witness. -/
def st0W : SyncState := { mappings := [m0W] }

/-- Block-endpoint oracle shared by both C10 witness runs. -/
def benvP : BlocksEnv :=
  { createResults := [], blockChildren := fun _ => [], listBlocksResult := [] }

/-- C10 witness oracle whose conflict-check fetch raises. -/
def env1W : ClientEnv :=
  { docGetResults := [Except.error "boom", Except.ok 6]
    docCreateResult := Except.error "offline", blocks := benvP }

/-- C10 witness oracle whose conflict-check fetch returns a non-conflicting
revision. -/
def env2W : ClientEnv :=
  { docGetResults := [Except.ok 5, Except.ok 6]
    docCreateResult := Except.error "offline", blocks := benvP }

lemma replaceCRLF_append_of_noCR (l : List Char) (x : List Char)
    (hl : ∀ c ∈ l, c ≠ '\r') : replaceCRLF (l ++ x) = l ++ replaceCRLF x := by
  induction l with
  | nil => rfl
  | cons c l ih =>
    have hc : c ≠ '\r' := hl c (List.mem_cons_self c l)
    have ih' := ih (fun d hd => hl d (List.mem_cons_of_mem c hd))
    cases hlx : l ++ x with
    | nil =>
      rcases List.append_eq_nil.1 hlx with ⟨rfl, rfl⟩
      rfl
    | cons d t =>
      calc replaceCRLF (c :: l ++ x) = replaceCRLF (c :: d :: t) := by rw [List.cons_append, hlx]
        _ = c :: replaceCRLF (d :: t) := by
              rw [replaceCRLF]
              simp [hc]
        _ = c :: replaceCRLF (l ++ x) := by rw [hlx]
        _ = c :: l ++ replaceCRLF x := by rw [ih', List.cons_append]

lemma replaceCRLF_of_noCR (l : List Char) (hl : ∀ c ∈ l, c ≠ '\r') :
    replaceCRLF l = l := by
  have h := replaceCRLF_append_of_noCR l [] hl
  rw [List.append_nil] at h
  rw [h]
  simp [replaceCRLF]

lemma replaceCRLF_crlf (x : List Char) :
    replaceCRLF ('\r' :: '\n' :: x) = '\n' :: replaceCRLF x := by
  rw [replaceCRLF]
  simp

lemma replaceCRLF_cr (x : List Char) (hx : x.head? ≠ some '\n') :
    replaceCRLF ('\r' :: x) = '\r' :: replaceCRLF x := by
  cases x with
  | nil => rfl
  | cons d t =>
    have hd : d ≠ '\n' := by simpa using hx
    rw [replaceCRLF]
    simp [hd]

lemma replaceCR_append (l x : List Char) :
    replaceCR (l ++ x) = replaceCR l ++ replaceCR x := by
  induction l with
  | nil => rfl
  | cons c l ih => rw [List.cons_append, replaceCR, replaceCR, ih, List.cons_append]

lemma replaceCR_of_noCR (l : List Char) (hl : ∀ c ∈ l, c ≠ '\r') :
    replaceCR l = l := by
  induction l with
  | nil => rfl
  | cons c l ih =>
    rw [replaceCR, if_neg (hl c (List.mem_cons_self c l)),
      ih (fun d hd => hl d (List.mem_cons_of_mem c hd))]

/-- After the CRLF pass, a CR-joined or LF-joined text is unchanged, and a
CRLF-joined text becomes LF-joined. -/
lemma replaceCRLF_joinLines (e : LineEnding) (lines : List (List Char))
    (hl : ∀ l ∈ lines, NoBreak l) :
    replaceCRLF (joinLines e lines) =
      joinLines (if e = .crlf then .lf else e) lines := by
  induction lines with
  | nil => cases e <;> rfl
  | cons l rest ih =>
    have hlno : ∀ c ∈ l, c ≠ '\r' := fun c hc => ((hl l (List.mem_cons_self l rest)) c hc).1
    have hrest : ∀ l₂ ∈ rest, NoBreak l₂ := fun l₂ h₂ => hl l₂ (List.mem_cons_of_mem l h₂)
    cases rest with
    | nil => cases e <;> simp [joinLines, replaceCRLF_of_noCR l hlno]
    | cons l₂ t =>
      have ih' := ih hrest
      cases e with
      | lf =>
        show replaceCRLF (l ++ endingChars .lf ++ joinLines .lf (l₂ :: t)) = _
        rw [List.append_assoc, replaceCRLF_append_of_noCR l _ hlno]
        have hnl : replaceCRLF (endingChars .lf ++ joinLines .lf (l₂ :: t)) =
            '\n' :: replaceCRLF (joinLines .lf (l₂ :: t)) := by
          show replaceCRLF ('\n' :: joinLines .lf (l₂ :: t)) = _
          cases hcase : joinLines LineEnding.lf (l₂ :: t) with
          | nil => rfl
          | cons d dt => rw [replaceCRLF]; simp
        rw [hnl, ih']
        simp [joinLines, endingChars]
      | cr =>
        have htail : (joinLines .cr (l₂ :: t)).head? ≠ some '\n' := by
          have h₂ : NoBreak l₂ := hrest l₂ (List.mem_cons_self l₂ t)
          cases hcase : l₂ with
          | nil =>
            cases t with
            | nil => simp [joinLines]
            | cons l₃ t₃ => simp [joinLines, endingChars]
          | cons c cs =>
            have hc : c ≠ '\n' := (h₂ c (by rw [hcase]; exact List.mem_cons_self c cs)).2
            cases t with
            | nil => simp [joinLines, hc]
            | cons l₃ t₃ => simp [joinLines, hc]
        show replaceCRLF (l ++ endingChars .cr ++ joinLines .cr (l₂ :: t)) = _
        rw [List.append_assoc, replaceCRLF_append_of_noCR l _ hlno]
        show l ++ replaceCRLF ('\r' :: joinLines .cr (l₂ :: t)) = _
        rw [replaceCRLF_cr _ htail, ih']
        simp [joinLines, endingChars]
      | crlf =>
        show replaceCRLF (l ++ endingChars .crlf ++ joinLines .crlf (l₂ :: t)) = _
        rw [List.append_assoc, replaceCRLF_append_of_noCR l _ hlno]
        show l ++ replaceCRLF ('\r' :: '\n' :: joinLines .crlf (l₂ :: t)) = _
        rw [replaceCRLF_crlf, ih']
        simp [joinLines, endingChars]

/-- After both passes, any uniformly joined text is the LF-joined text. -/
lemma normalize_joinLines (e : LineEnding) (lines : List (List Char))
    (hl : ∀ l ∈ lines, NoBreak l) :
    normalizeLineEndings (joinLines e lines) = joinLines .lf lines := by
  have hlf : ∀ e' : LineEnding, e' = .lf ∨ e' = .cr →
      replaceCR (joinLines e' lines) = joinLines .lf lines := by
    intro e' he'
    induction lines with
    | nil => cases he' <;> subst e' <;> rfl
    | cons l rest ih =>
      have hlno : ∀ c ∈ l, c ≠ '\r' := fun c hc => ((hl l (List.mem_cons_self l rest)) c hc).1
      cases rest with
      | nil => cases he' <;> subst e' <;> simp [joinLines, replaceCR_of_noCR l hlno]
      | cons l₂ t =>
        have ih' := ih (fun l₂' h₂ => hl l₂' (List.mem_cons_of_mem l h₂))
        cases he' <;> subst e' <;>
          rw [joinLines, replaceCR_append, replaceCR_append, replaceCR_of_noCR l hlno, ih'] <;>
          simp [joinLines, endingChars, replaceCR]
  unfold normalizeLineEndings
  rw [replaceCRLF_joinLines e lines hl]
  cases e with
  | lf => exact hlf .lf (Or.inl rfl)
  | cr => exact hlf .cr (Or.inr rfl)
  | crlf => exact hlf .lf (Or.inl rfl)

/-! ## Claim theorems: conflict classification and change detection -/
/-- C1: `ConflictDetector.detect` returns `BOTH_CHANGED` exactly when both
`has_local_changes` and `has_remote_changes` hold, `LOCAL_ONLY` when only the
local side changed, `REMOTE_ONLY` when only the remote side changed, and
`NONE` otherwise; and for `(stored_hash, current_hash, stored_revision,
current_revision)` with nonzero stored revision and the local file present,
`(h, h, 5, 5) ↦ NONE`, `(h, h', 5, 5) ↦ LOCAL_ONLY`, `(h, h, 5, 7) ↦
REMOTE_ONLY`, `(h, h', 5, 7) ↦ BOTH_CHANGED` (`h` a recorded — hence
nonempty — digest, `h'` a digest different from `h`). -/
theorem C1_conflict_detect_spec (sha : List Char → String)
    (fs : String → Option (List Char)) (path₁ path₂ : String) (c₁ c₂ : List Char)
    (h h' : String) (hf1 : fs path₁ = some c₁) (hf2 : fs path₂ = some c₂)
    (hh : compute_content_hash sha c₁ = h) (hh' : compute_content_hash sha c₂ = h')
    (hne : h ≠ "") (hne' : h' ≠ h) :
    (∀ (m : SyncMapping) (rev : Int),
      (detect sha fs m rev = ConflictType.BOTH_CHANGED ↔
        has_local_changes sha fs m = true ∧ has_remote_changes m rev = true)
      ∧ (detect sha fs m rev = ConflictType.LOCAL_ONLY ↔
        has_local_changes sha fs m = true ∧ has_remote_changes m rev = false)
      ∧ (detect sha fs m rev = ConflictType.REMOTE_ONLY ↔
        has_local_changes sha fs m = false ∧ has_remote_changes m rev = true)
      ∧ (detect sha fs m rev = ConflictType.NONE ↔
        has_local_changes sha fs m = false ∧ has_remote_changes m rev = false))
    ∧ detect sha fs (mkMapping path₁ h 5) 5 = ConflictType.NONE
    ∧ detect sha fs (mkMapping path₂ h 5) 5 = ConflictType.LOCAL_ONLY
    ∧ detect sha fs (mkMapping path₁ h 5) 7 = ConflictType.REMOTE_ONLY
    ∧ detect sha fs (mkMapping path₂ h 5) 7 = ConflictType.BOTH_CHANGED := by
  have hloc₁ : has_local_changes sha fs (mkMapping path₁ h 5) = false := by
    rw [has_local_changes]
    simp only [mkMapping]
    rw [hf1]
    simp [hne, hh]
  have hloc₂ : has_local_changes sha fs (mkMapping path₂ h 5) = true := by
    rw [has_local_changes]
    simp only [mkMapping]
    rw [hf2]
    by_cases hcase : h = ""
    · simp [hcase]
    · simp [hcase, hh']
      exact hne'
  have hrem₅ : ∀ s, has_remote_changes (mkMapping s h 5) 5 = false := by
    intro s
    rw [has_remote_changes]
    simp [mkMapping]
  have hrem₇ : ∀ s, has_remote_changes (mkMapping s h 5) 7 = true := by
    intro s
    rw [has_remote_changes]
    norm_num [mkMapping]
  refine ⟨?_, ?_, ?_, ?_, ?_⟩
  · intro m rev
    rw [detect]
    cases hl : has_local_changes sha fs m <;> cases hr : has_remote_changes m rev <;> simp
  · rw [detect, hloc₁, hrem₅]; rfl
  · rw [detect, hloc₂, hrem₅]; rfl
  · rw [detect, hloc₁, hrem₇]; rfl
  · rw [detect, hloc₂, hrem₇]; rfl

/-- Witness for C1 at a concrete digest function, filesystem and hashes. -/
theorem C1_witness :
    detect shaW fsW (mkMapping "p1" "h1" 5) 5 = ConflictType.NONE
    ∧ detect shaW fsW (mkMapping "p2" "h1" 5) 5 = ConflictType.LOCAL_ONLY
    ∧ detect shaW fsW (mkMapping "p1" "h1" 5) 7 = ConflictType.REMOTE_ONLY
    ∧ detect shaW fsW (mkMapping "p2" "h1" 5) 7 = ConflictType.BOTH_CHANGED := by
  have h := C1_conflict_detect_spec shaW fsW "p1" "p2" ['a'] ['b'] "h1" "h2"
    (by decide) (by decide) (by decide) (by decide) (by decide) (by decide)
  exact ⟨h.2.1, h.2.2.1, h.2.2.2.1, h.2.2.2.2⟩

/-- C6: the content hash is invariant under the line-ending convention: the
same logical lines joined with `\r\n`, lone `\r`, or `\n` produce the same
SHA-256 digest, because `compute_content_hash` normalizes line endings
before hashing. -/
theorem C6_content_hash_line_ending_invariant (sha : List Char → String)
    (lines : List (List Char)) (hl : ∀ l ∈ lines, NoBreak l)
    (e₁ e₂ : LineEnding) :
    compute_content_hash sha (joinLines e₁ lines) =
      compute_content_hash sha (joinLines e₂ lines) := by
  unfold compute_content_hash
  rw [normalize_joinLines e₁ lines hl, normalize_joinLines e₂ lines hl]

/-- Witness for C6: `"ab\r\ncd"` and `"ab\ncd"` hash identically. -/
theorem C6_witness :
    compute_content_hash String.mk (joinLines LineEnding.crlf [['a', 'b'], ['c', 'd']]) =
      compute_content_hash String.mk (joinLines LineEnding.lf [['a', 'b'], ['c', 'd']]) :=
  C6_content_hash_line_ending_invariant String.mk [['a', 'b'], ['c', 'd']]
    (by decide) LineEnding.crlf LineEnding.lf

/-- C7: `has_local_changes` is false when the file no longer exists, true
when no prior hash was recorded (empty stored hash), and otherwise true
exactly when the current file hash differs from the stored hash. -/
theorem C7_has_local_changes_spec (sha : List Char → String)
    (fs : String → Option (List Char)) (m : SyncMapping) :
    (fs m.local_path = none → has_local_changes sha fs m = false)
    ∧ (∀ c, fs m.local_path = some c → m.local_hash_at_sync = "" →
        has_local_changes sha fs m = true)
    ∧ (∀ c, fs m.local_path = some c → m.local_hash_at_sync ≠ "" →
        (has_local_changes sha fs m = true ↔
          compute_file_hash sha fs m.local_path ≠ some m.local_hash_at_sync)) := by
  refine ⟨?_, ?_, ?_⟩
  · intro hnone
    rw [has_local_changes, hnone]
  · intro c hc hempty
    rw [has_local_changes, hc]
    simp [hempty]
  · intro c hc hnonempty
    rw [has_local_changes, hc, compute_file_hash, hc]
    simp [hnonempty]

/-- Witness for C7: missing file, unrecorded hash, and hash-comparison cases
at concrete inputs. -/
theorem C7_witness :
    has_local_changes shaW fsW (mkMapping "p9" "x" 0) = false
    ∧ has_local_changes shaW fsW (mkMapping "p1" "" 0) = true
    ∧ (has_local_changes shaW fsW (mkMapping "p1" "zz" 0) = true ↔
        compute_file_hash shaW fsW "p1" ≠ some "zz") := by
  refine ⟨?_, ?_, ?_⟩
  · exact (C7_has_local_changes_spec shaW fsW (mkMapping "p9" "x" 0)).1 (by decide)
  · exact (C7_has_local_changes_spec shaW fsW (mkMapping "p1" "" 0)).2.1 ['a'] (by decide) rfl
  · exact (C7_has_local_changes_spec shaW fsW (mkMapping "p1" "zz" 0)).2.2 ['a'] (by decide) (by decide)

/-! ### Structural facts about the scanner -/
lemma lazyStar_eq (allowed : Char → Bool) (close : List Char) :
    ∀ cs inner rest, lazyStar allowed close cs = some (inner, rest) →
      cs = inner ++ close ++ rest := by
  intro cs
  induction cs with
  | nil =>
    intro inner rest h
    rw [lazyStar] at h
    by_cases hp : close.isPrefixOf ([] : List Char)
    · rw [if_pos hp] at h
      have hcl : close = [] := List.prefix_nil.1 (List.isPrefixOf_iff_prefix.1 hp)
      subst hcl
      injection h with h'
      obtain ⟨rfl, rfl⟩ := Prod.mk.injEq .. ▸ Prod.mk.inj h'
      rfl
    · rw [if_neg hp] at h
      cases h
  | cons c cs' ih =>
    intro inner rest h
    rw [lazyStar] at h
    by_cases hp : close.isPrefixOf (c :: cs')
    · rw [if_pos hp] at h
      obtain ⟨t, ht⟩ := List.isPrefixOf_iff_prefix.1 hp
      injection h with h'
      obtain ⟨rfl, rfl⟩ := Prod.mk.inj h'
      rw [List.nil_append, ← ht, List.drop_left]
    · rw [if_neg hp] at h
      by_cases ha : allowed c
      · rw [if_pos ha] at h
        cases hs : lazyStar allowed close cs' with
        | none => rw [hs] at h; cases h
        | some p =>
          rw [hs] at h
          injection h with h'
          obtain ⟨rfl, rfl⟩ := Prod.mk.inj h'
          have := ih p.1 p.2 (by rw [hs])
          simp [this]
      · rw [if_neg ha] at h
        cases h

lemma lazyPlus_eq (allowed : Char → Bool) (close : List Char) (cs inner rest : List Char)
    (h : lazyPlus allowed close cs = some (inner, rest)) :
    cs = inner ++ close ++ rest ∧ inner ≠ [] := by
  cases cs with
  | nil => rw [lazyPlus] at h; cases h
  | cons c cs' =>
    rw [lazyPlus] at h
    by_cases ha : allowed c
    · rw [if_pos ha] at h
      cases hs : lazyStar allowed close cs' with
      | none => rw [hs] at h; cases h
      | some p =>
        rw [hs] at h
        injection h with h'
        obtain ⟨rfl, rfl⟩ := Prod.mk.inj h'
        have := lazyStar_eq allowed close cs' p.1 p.2 (by rw [hs])
        exact ⟨by simp [this], by simp⟩
    · rw [if_neg ha] at h
      cases h

lemma prefix_lazyPlus_sizes (opener close : List Char) (allowed : Char → Bool)
    (cs inner rest : List Char) (hpre : opener.isPrefixOf cs = true)
    (h : lazyPlus allowed close (cs.drop opener.length) = some (inner, rest))
    (hop : 1 ≤ opener.length) (hcl : 1 ≤ close.length) :
    inner.length + 2 ≤ cs.length ∧ rest.length + 2 ≤ cs.length := by
  obtain ⟨t, ht⟩ := List.isPrefixOf_iff_prefix.1 hpre
  have hdrop : cs.drop opener.length = t := by rw [← ht, List.drop_left]
  rw [hdrop] at h
  obtain ⟨heq, hne⟩ := lazyPlus_eq allowed close t inner rest h
  have hlen : cs.length = opener.length + (inner.length + close.length + rest.length) := by
    rw [← ht, heq]
    simp [Nat.add_assoc]
  have hinner : 1 ≤ inner.length := by
    cases inner with
    | nil => exact absurd rfl hne
    | cons a b => simp
  omega

lemma tryBoldItalic_sizes (cs : List Char) (m : InlineMatch)
    (h : tryBoldItalic cs = some m) :
    m.inner.length + 2 ≤ cs.length ∧ m.rest.length + 2 ≤ cs.length := by
  rw [tryBoldItalic] at h
  by_cases hp : (['*', '*', '*'] : List Char).isPrefixOf cs
  · rw [if_pos hp] at h
    cases hq : lazyPlus (fun c => c != '\n') ['*', '*', '*'] (cs.drop 3) with
    | none => rw [hq] at h; cases h
    | some p =>
      rw [hq] at h
      injection h with h'
      subst h'
      exact prefix_lazyPlus_sizes ['*', '*', '*'] ['*', '*', '*'] _ cs p.1 p.2 hp hq
        (by simp) (by simp)
  · rw [if_neg hp] at h
    cases h

lemma tryBold_sizes (cs : List Char) (m : InlineMatch)
    (h : tryBold cs = some m) :
    m.inner.length + 2 ≤ cs.length ∧ m.rest.length + 2 ≤ cs.length := by
  rw [tryBold] at h
  by_cases hp : (['*', '*'] : List Char).isPrefixOf cs
  · rw [if_pos hp] at h
    cases hq : lazyPlus (fun c => c != '\n') ['*', '*'] (cs.drop 2) with
    | none => rw [hq] at h; cases h
    | some p =>
      rw [hq] at h
      injection h with h'
      subst h'
      exact prefix_lazyPlus_sizes ['*', '*'] ['*', '*'] _ cs p.1 p.2 hp hq (by simp) (by simp)
  · rw [if_neg hp] at h
    cases h

lemma tryItalic_sizes (cs : List Char) (m : InlineMatch)
    (h : tryItalic cs = some m) :
    m.inner.length + 2 ≤ cs.length ∧ m.rest.length + 2 ≤ cs.length := by
  rw [tryItalic] at h
  by_cases hp : (['*'] : List Char).isPrefixOf cs
  · rw [if_pos hp] at h
    cases hq : lazyPlus (fun c => c != '\n') ['*'] (cs.drop 1) with
    | none => rw [hq] at h; cases h
    | some p =>
      rw [hq] at h
      injection h with h'
      subst h'
      exact prefix_lazyPlus_sizes ['*'] ['*'] _ cs p.1 p.2 hp hq (by simp) (by simp)
  · rw [if_neg hp] at h
    cases h

lemma tryStrikethrough_sizes (cs : List Char) (m : InlineMatch)
    (h : tryStrikethrough cs = some m) :
    m.inner.length + 2 ≤ cs.length ∧ m.rest.length + 2 ≤ cs.length := by
  rw [tryStrikethrough] at h
  by_cases hp : (['~', '~'] : List Char).isPrefixOf cs
  · rw [if_pos hp] at h
    cases hq : lazyPlus (fun c => c != '\n') ['~', '~'] (cs.drop 2) with
    | none => rw [hq] at h; cases h
    | some p =>
      rw [hq] at h
      injection h with h'
      subst h'
      exact prefix_lazyPlus_sizes ['~', '~'] ['~', '~'] _ cs p.1 p.2 hp hq (by simp) (by simp)
  · rw [if_neg hp] at h
    cases h

lemma tryInlineCode_sizes (cs : List Char) (m : InlineMatch)
    (h : tryInlineCode cs = some m) :
    m.inner.length + 2 ≤ cs.length ∧ m.rest.length + 2 ≤ cs.length := by
  cases cs with
  | nil => rw [tryInlineCode] at h; cases h
  | cons c cs' =>
    rw [tryInlineCode] at h
    by_cases hc : c = '\x60'
    · rw [if_pos hc] at h
      cases hq : lazyPlus (fun x => x != '\x60') ['\x60'] cs' with
      | none => rw [hq] at h; cases h
      | some p =>
        rw [hq] at h
        injection h with h'
        subst h'
        obtain ⟨heq, hne⟩ := lazyPlus_eq _ _ cs' p.1 p.2 hq
        have hinner : 1 ≤ p.1.length := by
          cases hp1 : p.1 with
          | nil => exact absurd hp1 hne
          | cons a b => simp
        have hlen : cs'.length = p.1.length + 1 + p.2.length := by
          rw [heq]; simp; omega
        simp only [List.length_cons]
        omega
    · rw [if_neg hc] at h
      cases h

lemma tryLink_sizes (cs : List Char) (m : InlineMatch)
    (h : tryLink cs = some m) :
    m.inner.length + 2 ≤ cs.length ∧ m.rest.length + 2 ≤ cs.length := by
  cases cs with
  | nil => rw [tryLink] at h; cases h
  | cons c cs' =>
    rw [tryLink] at h
    by_cases hc : c = '['
    · rw [if_pos hc] at h
      cases hs : lazyStar (fun x => x != ']') [']'] cs' with
      | none => rw [hs] at h; cases h
      | some p =>
        obtain ⟨text, r₁⟩ := p
        rw [hs] at h
        have heq₁ := lazyStar_eq _ _ cs' text r₁ (by rw [hs])
        dsimp only at h
        cases r₁ with
        | nil => simp at h
        | cons d r₂ =>
          dsimp only at h
          by_cases hd : d = '('
          · rw [if_pos hd] at h
            cases hq : lazyPlus (fun x => x != ')') [')'] r₂ with
            | none => rw [hq] at h; cases h
            | some q =>
              rw [hq] at h
              injection h with h'
              subst h'
              obtain ⟨heq₂, hne₂⟩ := lazyPlus_eq _ _ r₂ q.1 q.2 hq
              have hurl : 1 ≤ q.1.length := by
                cases hq1 : q.1 with
                | nil => exact absurd hq1 hne₂
                | cons a b => simp
              have hlen₁ : cs'.length = text.length + 1 + (r₂.length + 1) := by
                rw [heq₁]; simp; omega
              have hlen₂ : r₂.length = q.1.length + 1 + q.2.length := by
                rw [heq₂]; simp; omega
              simp only [List.length_cons]
              omega
          · rw [if_neg hd] at h
            cases h
    · rw [if_neg hc] at h
      cases h

lemma matchAt_some_sizes (cs : List Char) (m : InlineMatch)
    (h : matchAt cs = some m) :
    m.inner.length + 2 ≤ cs.length ∧ m.rest.length + 2 ≤ cs.length := by
  rw [matchAt] at h
  cases h₁ : tryBoldItalic cs with
  | some m₁ =>
    rw [h₁] at h; simp only [Option.orElse] at h
    injection h with h'
    subst h'
    exact tryBoldItalic_sizes cs _ h₁
  | none =>
    rw [h₁] at h; simp only [Option.orElse] at h
    cases h₂ : tryBold cs with
    | some m₂ =>
      rw [h₂] at h; simp only [Option.orElse] at h
      injection h with h'
      subst h'
      exact tryBold_sizes cs _ h₂
    | none =>
      rw [h₂] at h; simp only [Option.orElse] at h
      cases h₃ : tryItalic cs with
      | some m₃ =>
        rw [h₃] at h; simp only [Option.orElse] at h
        injection h with h'
        subst h'
        exact tryItalic_sizes cs _ h₃
      | none =>
        rw [h₃] at h; simp only [Option.orElse] at h
        cases h₄ : tryStrikethrough cs with
        | some m₄ =>
          rw [h₄] at h; simp only [Option.orElse] at h
          injection h with h'
          subst h'
          exact tryStrikethrough_sizes cs _ h₄
        | none =>
          rw [h₄] at h; simp only [Option.orElse] at h
          cases h₅ : tryInlineCode cs with
          | some m₅ =>
            rw [h₅] at h; simp only [Option.orElse] at h
            injection h with h'
            subst h'
            exact tryInlineCode_sizes cs _ h₅
          | none =>
            rw [h₅] at h; simp only [Option.orElse] at h
            exact tryLink_sizes cs m h

/-! ### Unfolding equations of the fuelled mutual recursion -/
lemma loopGo_succ (f : Nat) (cs acc : List Char) :
    loopGo (f + 1) cs acc =
      match matchAt cs with
      | some m => flushPlain acc ++ emitGo f m ++ loopGo f m.rest []
      | none =>
        match cs with
        | [] => flushPlain acc
        | c :: rest => loopGo f rest (acc ++ [c]) := rfl

lemma parseGo_succ (f : Nat) (cs : List Char) :
    parseGo (f + 1) cs =
      if cs = [] then []
      else
        let elements := loopGo f cs []
        if elements = [] then [_make_text_element cs false false false false none]
        else elements := rfl

lemma ensureGo_succ (f : Nat) (t : List Char) :
    ensureGo (f + 1) t =
      let result := parseGo f t
      if result = [] then [_make_text_element t false false false false none]
      else result := rfl

lemma emitGo_succ (f : Nat) (m : InlineMatch) :
    emitGo (f + 1) m =
      match m.kind with
      | InlineKind.boldItalic =>
        (ensureGo f m.inner).map (fun child => _merge_style child true true false false none)
      | InlineKind.bold =>
        (ensureGo f m.inner).map (fun child => _merge_style child true false false false none)
      | InlineKind.italic =>
        (ensureGo f m.inner).map (fun child => _merge_style child false true false false none)
      | InlineKind.strikethrough =>
        (ensureGo f m.inner).map (fun child => _merge_style child false false true false none)
      | InlineKind.inlineCode =>
        [_make_text_element m.inner false false false true none]
      | InlineKind.link url =>
        (ensureGo f m.inner).map
          (fun child => _merge_style child false false false false (some url)) := rfl

/-! ### Fuel adequacy: the scanner's result is independent of the fuel once
it reaches `2·|input| + k` for the appropriate `k` per function. -/
lemma fuel_stable :
    ∀ n : Nat,
      (∀ (cs acc : List Char) (f : Nat), cs.length ≤ n → 2 * cs.length + 1 ≤ f →
        loopGo f cs acc = loopGo (2 * cs.length + 1) cs acc)
      ∧ (∀ (cs : List Char) (f : Nat), cs.length ≤ n → 2 * cs.length + 2 ≤ f →
        parseGo f cs = parseGo (2 * cs.length + 2) cs)
      ∧ (∀ (t : List Char) (f : Nat), t.length ≤ n → 2 * t.length + 3 ≤ f →
        ensureGo f t = ensureGo (2 * t.length + 3) t)
      ∧ (∀ (m : InlineMatch) (f : Nat), m.inner.length ≤ n → 2 * m.inner.length + 4 ≤ f →
        emitGo f m = emitGo (2 * m.inner.length + 4) m) := by
  intro n
  induction n using Nat.strong_induction_on with
  | _ n IH =>
    have hloop : ∀ (cs acc : List Char) (f : Nat), cs.length ≤ n → 2 * cs.length + 1 ≤ f →
        loopGo f cs acc = loopGo (2 * cs.length + 1) cs acc := by
      intro cs acc f hn hf
      obtain ⟨f', rfl⟩ : ∃ f', f = f' + 1 := ⟨f - 1, by omega⟩
      show loopGo (f' + 1) cs acc = loopGo (2 * cs.length + 1) cs acc
      rw [loopGo_succ, loopGo_succ]
      cases hm : matchAt cs with
      | none =>
        cases cs with
        | nil => rfl
        | cons c rest =>
          dsimp only
          simp only [List.length_cons] at hn hf ⊢
          have hlt : rest.length < n := by omega
          have h₁ := (IH rest.length hlt).1 rest (acc ++ [c]) f' le_rfl (by omega)
          have h₂ := (IH rest.length hlt).1 rest (acc ++ [c])
            (2 * (rest.length + 1)) le_rfl (by omega)
          rw [h₁, ← h₂]
      | some m =>
        dsimp only
        obtain ⟨hi, hr⟩ := matchAt_some_sizes cs m hm
        have hn2 : 2 ≤ cs.length := by omega
        have hlt : cs.length - 1 < n := by omega
        have he₁ := (IH (cs.length - 1) hlt).2.2.2 m f' (by omega) (by omega)
        have he₂ := (IH (cs.length - 1) hlt).2.2.2 m (2 * cs.length) (by omega) (by omega)
        have hr₁ := (IH (cs.length - 1) hlt).1 m.rest [] f' (by omega) (by omega)
        have hr₂ := (IH (cs.length - 1) hlt).1 m.rest [] (2 * cs.length) (by omega) (by omega)
        rw [he₁, ← he₂, hr₁, ← hr₂]
    have hparse : ∀ (cs : List Char) (f : Nat), cs.length ≤ n → 2 * cs.length + 2 ≤ f →
        parseGo f cs = parseGo (2 * cs.length + 2) cs := by
      intro cs f hn hf
      obtain ⟨f', rfl⟩ : ∃ f', f = f' + 1 := ⟨f - 1, by omega⟩
      show parseGo (f' + 1) cs = parseGo (2 * cs.length + 1 + 1) cs
      rw [parseGo_succ, parseGo_succ]
      by_cases hcs : cs = []
      · simp [hcs]
      · simp only [if_neg hcs]
        rw [hloop cs [] f' hn (by omega)]
    have hensure : ∀ (t : List Char) (f : Nat), t.length ≤ n → 2 * t.length + 3 ≤ f →
        ensureGo f t = ensureGo (2 * t.length + 3) t := by
      intro t f hn hf
      obtain ⟨f', rfl⟩ : ∃ f', f = f' + 1 := ⟨f - 1, by omega⟩
      show ensureGo (f' + 1) t = ensureGo (2 * t.length + 2 + 1) t
      rw [ensureGo_succ, ensureGo_succ]
      rw [hparse t f' hn (by omega)]
    have hemit : ∀ (m : InlineMatch) (f : Nat), m.inner.length ≤ n →
        2 * m.inner.length + 4 ≤ f → emitGo f m = emitGo (2 * m.inner.length + 4) m := by
      intro m f hn hf
      obtain ⟨f', rfl⟩ : ∃ f', f = f' + 1 := ⟨f - 1, by omega⟩
      show emitGo (f' + 1) m = emitGo (2 * m.inner.length + 3 + 1) m
      rw [emitGo_succ, emitGo_succ]
      have h₁ := hensure m.inner f' hn (by omega)
      cases m with
      | mk kind inner rest =>
        cases kind <;> simp only at h₁ ⊢ <;> rw [h₁]
    exact ⟨hloop, hparse, hensure, hemit⟩

lemma loopGo_fuel (cs acc : List Char) (f : Nat) (hf : 2 * cs.length + 1 ≤ f) :
    loopGo f cs acc = loopGo (2 * cs.length + 1) cs acc :=
  (fuel_stable cs.length).1 cs acc f le_rfl hf

lemma parseGo_fuel (cs : List Char) (f : Nat) (hf : 2 * cs.length + 2 ≤ f) :
    parseGo f cs = parse_inline_markdown cs :=
  (fuel_stable cs.length).2.1 cs f le_rfl hf

lemma ensureGo_fuel (t : List Char) (f : Nat) (hf : 2 * t.length + 3 ≤ f) :
    ensureGo f t = _ensure_elements t := by
  rw [(fuel_stable t.length).2.2.1 t f le_rfl hf]
  show ensureGo (2 * t.length + 2 + 1) t = _ensure_elements t
  rw [ensureGo, _ensure_elements, parse_inline_markdown]

/-! ### Behaviour of the scan loop when the pattern never matches -/
lemma loopGo_no_match : ∀ (cs acc : List Char) (f : Nat),
    (∀ s ∈ cs.tails, matchAt s = none) → cs.length + 1 ≤ f →
    loopGo f cs acc = flushPlain (acc ++ cs) := by
  intro cs
  induction cs with
  | nil =>
    intro acc f hall hf
    obtain ⟨f', rfl⟩ : ∃ f', f = f' + 1 := ⟨f - 1, by omega⟩
    rw [loopGo_succ, hall [] (by simp)]
    simp
  | cons c rest ih =>
    intro acc f hall hf
    obtain ⟨f', rfl⟩ : ∃ f', f = f' + 1 := ⟨f - 1, by omega⟩
    rw [loopGo_succ, hall (c :: rest) (by simp)]
    have hrest : ∀ s ∈ rest.tails, matchAt s = none := by
      intro s hs
      exact hall s (by rw [List.tails_cons]; exact List.mem_cons_of_mem _ hs)
    dsimp only
    rw [ih (acc ++ [c]) f' hrest (by simp at hf ⊢; omega)]
    simp

/-! ### Nonemptiness of emitted match elements -/
lemma ensureGo_ne_nil (f : Nat) (t : List Char) (hf : 1 ≤ f) : ensureGo f t ≠ [] := by
  obtain ⟨f', rfl⟩ : ∃ f', f = f' + 1 := ⟨f - 1, by omega⟩
  rw [ensureGo_succ]
  by_cases hp : parseGo f' t = [] <;> simp [hp]

lemma emitGo_ne_nil (f : Nat) (m : InlineMatch) (hf : 2 ≤ f) : emitGo f m ≠ [] := by
  obtain ⟨f', rfl⟩ : ∃ f', f = f' + 1 := ⟨f - 1, by omega⟩
  rw [emitGo_succ]
  have hens := ensureGo_ne_nil f' m.inner (by omega)
  cases m with
  | mk kind inner rest =>
    cases kind <;> simp only at hens ⊢ <;> simp [hens]

/-- One step of `parse_inline_markdown` when the pattern matches at the very
start of the input: the match's elements followed by the scan of the rest. -/
lemma parse_inline_step (cs : List Char) (m : InlineMatch) (hm : matchAt cs = some m) :
    parse_inline_markdown cs = emitGo (2 * cs.length) m ++ scanFrom m.rest := by
  obtain ⟨hi, hr⟩ := matchAt_some_sizes cs m hm
  have hne : cs ≠ [] := by
    intro h
    subst h
    simp at hi
  have hloopstep : loopGo (2 * cs.length + 1) cs [] =
      emitGo (2 * cs.length) m ++ scanFrom m.rest := by
    rw [loopGo_succ, hm]
    dsimp only
    rw [loopGo_fuel m.rest [] (2 * cs.length) (by omega)]
    rw [scanFrom]
    simp [flushPlain]
  have helems : emitGo (2 * cs.length) m ++ scanFrom m.rest ≠ [] := by
    intro h
    exact emitGo_ne_nil (2 * cs.length) m (by omega) (List.append_eq_nil.1 h).1
  rw [parse_inline_markdown]
  show parseGo (2 * cs.length + 1 + 1) cs = _
  rw [parseGo_succ]
  simp only [if_neg hne, hloopstep, if_neg helems]

/-! ## Claim theorems: inline decoding -/
/-- C3: `parse_inline_markdown` maps the empty string to the empty list, and
any nonempty input in which the inline pattern matches nowhere (no recognized
inline marker) to exactly one plain `text_run` element whose content is the
whole input, with every style flag false and no link. -/
theorem C3_parse_inline_plain_spec :
    parse_inline_markdown [] = []
    ∧ ∀ cs : List Char, cs ≠ [] → (∀ s ∈ cs.tails, matchAt s = none) →
      parse_inline_markdown cs = [_make_text_element cs false false false false none] := by
  refine ⟨rfl, ?_⟩
  intro cs hne hall
  rw [parse_inline_markdown]
  show parseGo (2 * cs.length + 1 + 1) cs = _
  rw [parseGo_succ]
  simp only [if_neg hne]
  rw [loopGo_no_match cs [] (2 * cs.length + 1) hall (by omega)]
  simp only [List.nil_append]
  rw [flushPlain, if_neg hne]
  simp

/-- Witness for C3: the empty string and a marker-free string. -/
theorem C3_witness :
    parse_inline_markdown [] = []
    ∧ parse_inline_markdown ['h', 'i'] =
        [_make_text_element ['h', 'i'] false false false false none] :=
  ⟨C3_parse_inline_plain_spec.1,
   C3_parse_inline_plain_spec.2 ['h', 'i'] (by decide) (by decide)⟩

/-- C4: decoding `"**bold *and* more**"` yields elements that all carry
`bold = true` with exactly the middle one additionally italic; and in
general, whenever the inline pattern matches at the head of the input, the
inner text of a non-code match is recursively decoded (`_ensure_elements`)
with the outer style flag — or link URL — merged onto every element the
recursive call produces, followed by the scan of the remainder. -/
theorem C4_nested_style_merge :
    ((parse_inline_markdown (String.toList "**bold *and* more**")).length = 3
      ∧ (∀ e ∈ parse_inline_markdown (String.toList "**bold *and* more**"), e.bold = true)
      ∧ (parse_inline_markdown (String.toList "**bold *and* more**")).map TextElement.italic
          = [false, true, false])
    ∧ ∀ (cs : List Char) (m : InlineMatch), matchAt cs = some m →
        parse_inline_markdown cs =
          (match m.kind with
            | InlineKind.boldItalic =>
              (_ensure_elements m.inner).map
                (fun child => _merge_style child true true false false none)
            | InlineKind.bold =>
              (_ensure_elements m.inner).map
                (fun child => _merge_style child true false false false none)
            | InlineKind.italic =>
              (_ensure_elements m.inner).map
                (fun child => _merge_style child false true false false none)
            | InlineKind.strikethrough =>
              (_ensure_elements m.inner).map
                (fun child => _merge_style child false false true false none)
            | InlineKind.inlineCode =>
              [_make_text_element m.inner false false false true none]
            | InlineKind.link url =>
              (_ensure_elements m.inner).map
                (fun child => _merge_style child false false false false (some url)))
          ++ scanFrom m.rest := by
  constructor
  · refine ⟨by decide, ?_, by decide⟩
    decide
  · intro cs m hm
    obtain ⟨hi, hr⟩ := matchAt_some_sizes cs m hm
    rw [parse_inline_step cs m hm]
    congr 1
    rw [(fuel_stable m.inner.length).2.2.2 m (2 * cs.length) le_rfl (by omega)]
    show emitGo (2 * m.inner.length + 3 + 1) m = _
    rw [emitGo_succ]
    have hens := ensureGo_fuel m.inner (2 * m.inner.length + 3) le_rfl
    cases m with
    | mk kind inner rest => cases kind <;> simp [hens]

/-- Witness for C4: an italic match at the head of `"*i* t"`. -/
theorem C4_witness :
    parse_inline_markdown (String.toList "*i* t") =
      (_ensure_elements ['i']).map (fun child => _merge_style child false true false false none)
        ++ scanFrom [' ', 't'] := by
  have h := C4_nested_style_merge.2 (String.toList "*i* t")
    ⟨InlineKind.italic, ['i'], [' ', 't']⟩ (by decide)
  exact h

/-! ## Claim theorems: code-language resolution -/
/-- C8 (amended): an empty language tag resolves to plaintext (1);
recognized aliases resolve case-insensitively to their integer codes; and an
unrecognized tag passes through as a literal string — namely its lowercased,
whitespace-stripped form — rather than failing. -/
theorem C8_lang_lookup_spec :
    _reverse_lang_lookup [] = LangValue.int 1
    ∧ (∀ s : List Char, s ≠ [] → ∀ n : Nat, lookupLang (pyStrip (pyLower s)) = some n →
        _reverse_lang_lookup s = LangValue.int n)
    ∧ (∀ s : List Char, s ≠ [] → lookupLang (pyStrip (pyLower s)) = none →
        _reverse_lang_lookup s = LangValue.str (pyStrip (pyLower s)))
    ∧ _reverse_lang_lookup (String.toList "py") = LangValue.int 49
    ∧ _reverse_lang_lookup (String.toList "Python") = LangValue.int 49
    ∧ _reverse_lang_lookup (String.toList "JS") = LangValue.int 30
    ∧ _reverse_lang_lookup (String.toList "javascript") = LangValue.int 30
    ∧ _reverse_lang_lookup (String.toList "SH") = LangValue.int 7
    ∧ _reverse_lang_lookup (String.toList "bash") = LangValue.int 7 := by
  refine ⟨by decide, ?_, ?_, by decide, by decide, by decide, by decide, by decide, by decide⟩
  · intro s hs n hn
    rw [_reverse_lang_lookup, if_neg hs]
    simp only [hn]
  · intro s hs hn
    rw [_reverse_lang_lookup, if_neg hs]
    simp only [hn]

/-- Witness for C8 at concrete tags: an unrecognized tag passes through
lowercased, and a recognized alias resolves. -/
theorem C8_witness :
    _reverse_lang_lookup (String.toList "zzz") = LangValue.str (String.toList "zzz")
    ∧ _reverse_lang_lookup (String.toList "py") = LangValue.int 49 :=
  ⟨C8_lang_lookup_spec.2.2.1 (String.toList "zzz") (by decide) (by decide),
   C8_lang_lookup_spec.2.2.2.1⟩

/-- Counterexample for C8 as frozen: the stored passthrough is the
lowercased tag, not the literal tag that was given — `"FooLang"` is stored
as `"foolang"`. -/
theorem C8_counterexample :
    _reverse_lang_lookup (String.toList "FooLang") = LangValue.str (String.toList "foolang")
    ∧ LangValue.str (String.toList "foolang") ≠ LangValue.str (String.toList "FooLang") := by
  decide

/-! ## Claim theorems: tree reconstruction and render order -/
lemma find?_eq_of_unique {α : Type} (p : α → Bool) :
    ∀ (l : List α) (x : α), x ∈ l → p x = true →
      (∀ y ∈ l, p y = true → y = x) → l.find? p = some x := by
  intro l
  induction l with
  | nil => intro x hx; cases hx
  | cons a t ih =>
    intro x hx hp huniq
    by_cases ha : p a = true
    · rw [List.find?_cons_of_pos _ ha, huniq a (List.mem_cons_self a t) ha]
    · rw [List.find?_cons_of_neg _ (by simpa using ha)]
      have hxt : x ∈ t := by
        cases hx with
        | head => exact absurd hp ha
        | tail _ h => exact h
      exact ih x hxt hp (fun y hy hpy => huniq y (List.mem_cons_of_mem a hy) hpy)

lemma from_value_eq_PAGE_iff (v : Nat) :
    BlockType.from_value v = BlockType.PAGE ↔ v = 1 := by
  constructor
  · intro h
    cases hf : blockTypeTable.find? (fun kv => kv.1 == v) with
    | none =>
      rw [BlockType.from_value, hf] at h
      cases h
    | some kv =>
      rw [BlockType.from_value, hf] at h
      have hmem := List.mem_of_find?_eq_some hf
      have hkey : kv.1 = v := by simpa using List.find?_some hf
      have htab : ∀ p ∈ blockTypeTable, p.2 = BlockType.PAGE → p.1 = 1 := by decide
      rw [← hkey]
      exact htab kv hmem h
  · intro h
    subst h
    rfl

lemma build_tree_of_unique (blocks : List WBlock) (bid : String) (x : WBlock)
    (hx : x ∈ blocks) (hid : x.block_id = bid)
    (huniq : ∀ y ∈ blocks, y.block_id = bid → y = x) :
    _build_tree blocks bid = some x := by
  apply find?_eq_of_unique _ _ x (List.mem_reverse.2 hx) (by simp [hid])
  intro y hy hpy
  exact huniq y (List.mem_reverse.1 hy) (by simpa using hpy)

/-- A resolvable block with no children and no table body contributes
exactly its own id to the visit order, whatever its kind. -/
lemma visitGo_childless (blocks : List WBlock) (fuel : Nat) (ref : String) (b : WBlock)
    (hb : _build_tree blocks ref = some b) (hch : b.children = [])
    (htab : b.tableRowSize = 0) :
    visitGo blocks (fuel + 1) ref = [b.block_id] := by
  rw [visitGo, hb]
  dsimp only
  split <;> simp [hch, htab]

/-- C5 (amended): in a flat block list holding one page-kind block with
children `[a, b]`, a childless block `a`, a block `b` with children `[c]`
whose kind recurses into children (bullet, ordered, todo, callout or
quote-container), and a childless block `c`, rendering visits `a`, then
`b`, then `c`, in that order, whatever the storage order of the list; and
the ordered root ids are the (unique) page block's children when a page
block exists, else the ids of the blocks whose declared parent id is not in
the index. -/
theorem C5_tree_reconstruction_order :
    (∀ (l : List WBlock) (ka kb kc : Nat),
      l.Perm [pageB, aB ka, bB kb, cB kc] →
      ka ≠ 1 → kc ≠ 1 → kb ∈ ([12, 13, 17, 19, 34] : List Nat) →
      convertVisits l = ["a", "b", "c"])
    ∧ (∀ (blocks : List WBlock) (b : WBlock), b ∈ blocks →
        BlockType.from_value b.block_type = BlockType.PAGE →
        (∀ y ∈ blocks, BlockType.from_value y.block_type = BlockType.PAGE → y = b) →
        _root_children blocks = b.children)
    ∧ (∀ blocks : List WBlock,
        (∀ b ∈ blocks, BlockType.from_value b.block_type ≠ BlockType.PAGE) →
        _root_children blocks =
          (blocks.filter (fun b => !(_in_index blocks b.parent_id))).map
            (fun b => b.block_id)) := by
  refine ⟨?_, ?_, ?_⟩
  · intro l ka kb kc hperm hka hkc hkb
    have hlen : l.length = 4 := by rw [hperm.length_eq]; rfl
    have hmem : ∀ y ∈ l, y = pageB ∨ y = aB ka ∨ y = bB kb ∨ y = cB kc := by
      intro y hy
      have := hperm.mem_iff.1 hy
      simpa using this
    have hkbne1 : kb ≠ 1 := by
      intro h
      subst h
      simp at hkb
    have hpage : l.find? (fun b => BlockType.from_value b.block_type == BlockType.PAGE)
        = some pageB := by
      apply find?_eq_of_unique _ _ pageB (hperm.mem_iff.2 (by simp)) (by decide)
      intro y hy hpy
      rcases hmem y hy with rfl | rfl | rfl | rfl
      · rfl
      · exact absurd ((from_value_eq_PAGE_iff ka).1 (by simpa [aB] using hpy)) hka
      · exact absurd ((from_value_eq_PAGE_iff kb).1 (by simpa [bB] using hpy)) hkbne1
      · exact absurd ((from_value_eq_PAGE_iff kc).1 (by simpa [cB] using hpy)) hkc
    have hroot : _root_children l = ["a", "b"] := by
      rw [_root_children, hpage]
      rfl
    have hlookA : _build_tree l "a" = some (aB ka) := by
      apply build_tree_of_unique l "a" (aB ka) (hperm.mem_iff.2 (by simp)) rfl
      intro y hy hid
      rcases hmem y hy with rfl | rfl | rfl | rfl <;> first | rfl | (exfalso; simp [pageB, bB, cB] at hid)
    have hlookB : _build_tree l "b" = some (bB kb) := by
      apply build_tree_of_unique l "b" (bB kb) (hperm.mem_iff.2 (by simp)) rfl
      intro y hy hid
      rcases hmem y hy with rfl | rfl | rfl | rfl <;> first | rfl | (exfalso; simp [pageB, aB, cB] at hid)
    have hlookC : _build_tree l "c" = some (cB kc) := by
      apply build_tree_of_unique l "c" (cB kc) (hperm.mem_iff.2 (by simp)) rfl
      intro y hy hid
      rcases hmem y hy with rfl | rfl | rfl | rfl <;> first | rfl | (exfalso; simp [pageB, aB, bB] at hid)
    have hlen' : l.length = 3 + 1 := by omega
    have hvisA : visitGo l (l.length + 1) "a" = ["a"] :=
      visitGo_childless l l.length "a" (aB ka) hlookA rfl rfl
    have hvisC : visitGo l l.length "c" = ["c"] := by
      rw [hlen']
      exact visitGo_childless l 3 "c" (cB kc) hlookC rfl rfl
    have hvisB : visitGo l (l.length + 1) "b" = ["b", "c"] := by
      rw [visitGo, hlookB]
      dsimp only [bB]
      simp only [List.mem_cons, List.mem_singleton, List.not_mem_nil, or_false] at hkb
      rcases hkb with rfl | rfl | rfl | rfl | rfl
      · rw [show BlockType.from_value 12 = BlockType.BULLET from rfl]
        simp [hvisC]
      · rw [show BlockType.from_value 13 = BlockType.ORDERED from rfl]
        simp [hvisC]
      · rw [show BlockType.from_value 17 = BlockType.TODO from rfl]
        simp [hvisC]
      · rw [show BlockType.from_value 19 = BlockType.CALLOUT from rfl]
        simp [hvisC]
      · rw [show BlockType.from_value 34 = BlockType.QUOTE_CONTAINER from rfl]
        simp [hvisC]
    rw [convertVisits, hroot]
    simp [hvisA, hvisB]
  · intro blocks b hb hpage huniq
    rw [_root_children,
      find?_eq_of_unique _ blocks b hb (by simp [hpage])
        (fun y hy hpy => huniq y hy (by simpa using hpy))]
  · intro blocks hnone
    rw [_root_children, List.find?_eq_none.2 (fun y hy => by simpa using hnone y hy)]

/-- Witness for C5 (amended), with `b` a bullet block and odd storage
order handled by the permutation hypothesis instantiated reflexively. -/
theorem C5_witness :
    convertVisits [pageB, aB 2, bB 12, cB 2] = ["a", "b", "c"] :=
  C5_tree_reconstruction_order.1 [pageB, aB 2, bB 12, cB 2] 2 12 2
    (List.Perm.refl _) (by decide) (by decide) (by decide)

/-- Counterexample for C5 as frozen: when block `b` is a plain TEXT block,
its handler does not recurse into children, so `c` is never rendered even
though `b.children = [c]`. -/
theorem C5_counterexample :
    convertVisits cexBlocks = ["a", "b"]
    ∧ ¬ ("c" ∈ convertVisits cexBlocks) := by
  decide

/-! ## Claim theorems: table materialization -/
lemma updates_length_aux (children : List PBlock) :
    ∀ (tids : List String) (k : Nat), (∀ t ∈ tids, t ≠ "") →
      ((tids.enumFrom k).filterMap (fun p =>
          if p.2 = "" then none
          else
            let cell_text := _extract_cell_text children p.1
            if cell_text = [] then none else some (p.2, cell_text))).length =
        ((List.range' k tids.length).filter
          (fun i => !(_extract_cell_text children i == []))).length := by
  intro tids
  induction tids with
  | nil => intro k h; rfl
  | cons t ts ih =>
    intro k h
    have ht : t ≠ "" := h t (List.mem_cons_self t ts)
    have htail : ∀ t' ∈ ts, t' ≠ "" := fun t' h' => h t' (List.mem_cons_of_mem t h')
    rw [List.enumFrom_cons]
    by_cases hext : _extract_cell_text children k = []
    · simp [ht, hext, List.range'_succ, ih (k + 1) htail]
    · simp [ht, hext, List.range'_succ, ih (k + 1) htail]

/-- One batched update request per non-empty cell: the update list's length
is the number of cell indices whose local text is non-empty, provided every
remote cell has a TEXT child. -/
lemma tableCellUpdates_length (benv : BlocksEnv) (children : List PBlock)
    (cell_ids : List String)
    (htIds : ∀ cid ∈ cell_ids, (benv.blockChildren cid).headD "" ≠ "") :
    (tableCellUpdates benv children cell_ids).length =
      ((List.range cell_ids.length).filter
        (fun i => !(_extract_cell_text children i == []))).length := by
  rw [tableCellUpdates]
  have hlen : (tableCellTextIds benv cell_ids).length = cell_ids.length := by
    rw [tableCellTextIds, List.length_map]
  have hne : ∀ t ∈ tableCellTextIds benv cell_ids, t ≠ "" := by
    intro t ht
    rw [tableCellTextIds] at ht
    obtain ⟨cid, hcid, rfl⟩ := List.mem_map.1 ht
    exact htIds cid hcid
  rw [show (tableCellTextIds benv cell_ids).enum
      = (tableCellTextIds benv cell_ids).enumFrom 0 from rfl]
  rw [updates_length_aux children (tableCellTextIds benv cell_ids) 0 hne, hlen,
    ← List.range_eq_range']

/-- C2 (amended): materializing a local table block with `R` rows and `C`
columns (`R, C > 0`, remote create succeeding with id `table_id`, the
re-fetch returning the nonempty row-major cell list `cell_ids`, each cell
carrying a TEXT child) issues exactly, in order: one table-creation call
with `min(R, 9)` rows, one row-insert per row beyond 9 (indices
`min(R,9) … R-1`, i.e. `max(R-9, 0)` of them), one column-width patch per
column with width `686 / C` (integer division), the table re-fetch, the
per-cell fetches, and one batched text-update call — present exactly when
some cell's local text is non-empty — containing one update per non-empty
cell in row-major order. -/
theorem C2_table_materialization (benv : BlocksEnv)
    (document_id parent_block_id : String) (tb : PBlock) (σ : CallState)
    (R C : Nat) (table_id : String) (cell_ids : List String)
    (hprop : tb.table = some (R, C)) (hR : 0 < R) (hC : 0 < C)
    (hcreate : benv.createResults.getD σ.createCalls none = some table_id)
    (hcells : benv.blockChildren table_id = cell_ids) (hne : cell_ids ≠ [])
    (htIds : ∀ cid ∈ cell_ids, (benv.blockChildren cid).headD "" ≠ "") :
    ((_create_table_block benv document_id parent_block_id tb σ).trace =
      σ.trace
        ++ [ROp.createChildren document_id parent_block_id
              [PBlock.mk tb.block_type (some (min R 9, C)) none []]]
        ++ (List.range' (min R 9) (R - 9)).map
              (fun idx => ROp.insertTableRow document_id table_id idx)
        ++ (List.range C).map
              (fun idx => ROp.updateColumnWidth document_id table_id idx (686 / C))
        ++ [ROp.getBlock document_id table_id]
        ++ cell_ids.map (fun cid => ROp.getBlock document_id cid)
        ++ (if tableCellUpdates benv tb.children cell_ids = [] then []
            else [ROp.batchUpdateText document_id
                    (tableCellUpdates benv tb.children cell_ids)]))
    ∧ (tableCellUpdates benv tb.children cell_ids).length =
        ((List.range cell_ids.length).filter
          (fun i => !(_extract_cell_text tb.children i == []))).length := by
  refine ⟨?_, tableCellUpdates_length benv tb.children cell_ids htIds⟩
  rw [_create_table_block]
  simp only [hprop, Option.getD_some]
  rw [if_neg (by omega)]
  simp only [createChildrenCall, hcreate, getBlockCall, hcells]
  rw [if_neg hne]
  have hmin : R - R ⊓ 9 = R - 9 := by omega
  rw [hmin]
  by_cases hupd : tableCellUpdates benv tb.children cell_ids = []
  · rw [if_pos hupd, if_pos hupd]
    simp [List.append_assoc]
  · rw [if_neg hupd, if_neg hupd]

/-- Witness for C2: a 12×3 table with every cell non-empty issues exactly
one creation call, 3 row inserts, and one batched update of 36 cells. -/
theorem C2_witness :
    ((_create_table_block benvT "doc" "par" tbW {}).trace.filter
        ROp.isCreateChildren).length = 1
    ∧ ((_create_table_block benvT "doc" "par" tbW {}).trace.filter
        ROp.isInsertTableRow).length = 3
    ∧ ((_create_table_block benvT "doc" "par" tbW {}).trace.filter
        ROp.isBatchUpdateText).length = 1
    ∧ (tableCellUpdates benvT tbW.children cellIdsW).length = 36 := by
  have h := C2_table_materialization benvT "doc" "par" tbW {} 12 3 "tbl" cellIdsW
    rfl (by decide) (by decide) (by decide) (by decide) (by decide) (by decide)
  refine ⟨?_, ?_, ?_, ?_⟩
  · rw [h.1]; decide
  · rw [h.1]; decide
  · rw [h.1]; decide
  · rw [h.2]; decide

/-- Counterexample for C2 as frozen: a 1×1 table whose single cell's local
text is empty issues no batched text-update call at all, not one. -/
theorem C2_counterexample :
    ((_create_table_block benvE "doc" "par" tbE {}).trace.filter
        ROp.isBatchUpdateText).length = 0 := by
  decide

/-! ## Claim theorems: push orchestration -/
/-- C9: when the local file does not exist, `sync_to_lark` returns a
failure result whose message names the missing path, issues no remote
operation (the call state, including the operation trace, is returned
untouched), and leaves the persisted sync state unchanged. -/
theorem C9_missing_file_aborts (env : ClientEnv) (conv : List Char → List PBlock)
    (sha : List Char → String) (now : Nat) (st : SyncState)
    (fs : String → Option (List Char)) (local_path : String)
    (document_id folder_token wiki_space_id : Option String) (force : Bool)
    (σ : CallState) (h : fs local_path = none) :
    sync_to_lark env conv sha now st fs local_path document_id folder_token
        wiki_space_id force σ =
      (Except.ok { success := false
                   message := "Local file not found: " ++ local_path
                   local_path := local_path },
       st, σ) := by
  rw [sync_to_lark, h]

/-- Witness for C9 at a concrete environment and missing path. -/
theorem C9_witness :
    sync_to_lark envW (fun _ => []) shaW 0 {} fsW "missing.md" none none none false {} =
      (Except.ok { success := false
                   message := "Local file not found: missing.md"
                   local_path := "missing.md" },
       ({} : SyncState), ({} : CallState)) := by
  have h := C9_missing_file_aborts envW (fun _ => []) shaW 0 {} fsW "missing.md"
    none none none false {} (by decide)
  simpa using h

/-! ### The materialization helpers never call `documents.get` -/
lemma flushFlatBatch_docGetCalls (benv : BlocksEnv) (d p : String)
    (flat : List PBlock) (σ : CallState) :
    (flushFlatBatch benv d p flat σ).docGetCalls = σ.docGetCalls := by
  rw [flushFlatBatch]
  split <;> rfl

lemma create_table_block_docGetCalls (benv : BlocksEnv) (d p : String)
    (tb : PBlock) (σ : CallState) :
    (_create_table_block benv d p tb σ).docGetCalls = σ.docGetCalls := by
  rw [_create_table_block]
  dsimp only
  by_cases h0 : (tb.table.getD (0, 0)).1 = 0 ∨ (tb.table.getD (0, 0)).2 = 0
  · rw [if_pos h0]
  · rw [if_neg h0]
    simp only [createChildrenCall, getBlockCall]
    cases hg : benv.createResults.getD σ.createCalls none with
    | none => rfl
    | some tid =>
      dsimp only
      split
      · rfl
      · split <;> rfl

lemma cbwnGo_docGetCalls (benv : BlocksEnv) (docid : String) :
    ∀ (n : Nat) (parent : String) (blocks flat : List PBlock) (σ : CallState),
      sizeOf blocks ≤ n →
      (cbwnGo benv docid parent blocks flat σ).docGetCalls = σ.docGetCalls := by
  intro n
  induction n using Nat.strong_induction_on with
  | _ n IH =>
    intro parent blocks flat σ hsz
    match blocks with
    | [] =>
      rw [cbwnGo]
      exact flushFlatBatch_docGetCalls benv docid parent flat σ
    | PBlock.mk bt ta tx bchildren :: rest =>
      have hszr : sizeOf rest < n := by
        have h := List.cons.sizeOf_spec (PBlock.mk bt ta tx bchildren) rest
        omega
      have hszc : sizeOf bchildren < n := by
        have h := List.cons.sizeOf_spec (PBlock.mk bt ta tx bchildren) rest
        have h₂ := PBlock.mk.sizeOf_spec bt ta tx bchildren
        omega
      rw [cbwnGo]
      by_cases hch : bchildren = []
      · rw [if_pos hch]
        exact IH (sizeOf rest) hszr parent rest _ σ le_rfl
      · rw [if_neg hch]
        by_cases htb : BlockType.from_value bt = BlockType.TABLE
        · rw [if_pos htb]
          rw [IH (sizeOf rest) hszr parent rest [] _ le_rfl]
          rw [create_table_block_docGetCalls]
          exact flushFlatBatch_docGetCalls benv docid parent flat σ
        · rw [if_neg htb]
          cases hcc : createChildrenCall benv docid parent [PBlock.mk bt ta tx []]
              (flushFlatBatch benv docid parent flat σ) with
          | mk created σ₂ =>
            have hσ₂ : σ₂.docGetCalls = σ.docGetCalls := by
              have : σ₂ = (createChildrenCall benv docid parent [PBlock.mk bt ta tx []]
                  (flushFlatBatch benv docid parent flat σ)).2 := by rw [hcc]
              rw [this, createChildrenCall]
              exact flushFlatBatch_docGetCalls benv docid parent flat σ
            cases created with
            | some created_id =>
              rw [IH (sizeOf rest) hszr parent rest [] _ le_rfl,
                IH (sizeOf bchildren) hszc created_id bchildren [] σ₂ le_rfl, hσ₂]
            | none =>
              rw [IH (sizeOf rest) hszr parent rest [] σ₂ le_rfl, hσ₂]

lemma create_blocks_with_nesting_docGetCalls (benv : BlocksEnv) (docid parent : String)
    (blocks : List PBlock) (σ : CallState) :
    (_create_blocks_with_nesting benv docid parent blocks σ).docGetCalls = σ.docGetCalls :=
  cbwnGo_docGetCalls benv docid (sizeOf blocks) parent blocks [] σ le_rfl

lemma clear_document_blocks_docGetCalls (benv : BlocksEnv) (d : String) (σ : CallState) :
    (_clear_document_blocks benv d σ).docGetCalls = σ.docGetCalls := by
  rw [_clear_document_blocks]
  dsimp only
  split <;> rfl

/-! ### The push body depends on the `documents.get` oracle only beyond the
calls already consumed -/
lemma pushBody_env_congr (env₁ env₂ : ClientEnv) (conv : List Char → List PBlock)
    (sha : List Char → String) (now : Nat) (st : SyncState) (local_path : String)
    (content : List Char) (mapping : Option SyncMapping) (d : String)
    (folder_token wiki_space_id : Option String) (σ : CallState)
    (hbe : env₁.blocks = env₂.blocks)
    (hget : ∀ k, 1 ≤ k → env₁.docGetResults.getD k (Except.error "connection error")
        = env₂.docGetResults.getD k (Except.error "connection error"))
    (hσ : 1 ≤ σ.docGetCalls) :
    pushBody env₁ conv sha now st local_path content mapping (some d)
        folder_token wiki_space_id σ =
      pushBody env₂ conv sha now st local_path content mapping (some d)
        folder_token wiki_space_id σ := by
  simp only [pushBody]
  rw [hbe]
  have hσ₂ : 1 ≤ ((if conv content = [] then _clear_document_blocks env₂.blocks d σ
      else _create_blocks_with_nesting env₂.blocks d d (conv content)
        (_clear_document_blocks env₂.blocks d σ))).docGetCalls := by
    split
    · rw [clear_document_blocks_docGetCalls]
      exact hσ
    · rw [create_blocks_with_nesting_docGetCalls, clear_document_blocks_docGetCalls]
      exact hσ
  have hdg : docGetCall env₁ d (if conv content = [] then _clear_document_blocks env₂.blocks d σ
      else _create_blocks_with_nesting env₂.blocks d d (conv content)
        (_clear_document_blocks env₂.blocks d σ)) =
      docGetCall env₂ d (if conv content = [] then _clear_document_blocks env₂.blocks d σ
      else _create_blocks_with_nesting env₂.blocks d d (conv content)
        (_clear_document_blocks env₂.blocks d σ)) := by
    rw [docGetCall, docGetCall, hget _ hσ₂]
  rw [hdg]

/-- C10: on a non-forced push of a file with an existing mapping and
document id, a failure of the remote metadata fetch performed for conflict
detection is swallowed: the push proceeds to clear and rewrite the remote
document exactly as if no conflict had been detected — the entire outcome
(result, persisted state, and operation trace) equals that of a run whose
fetch returns a non-conflicting revision. -/
theorem C10_conflict_fetch_failure_swallowed (env₁ env₂ : ClientEnv)
    (conv : List Char → List PBlock) (sha : List Char → String) (now : Nat)
    (st : SyncState) (fs : String → Option (List Char)) (local_path : String)
    (document_id folder_token wiki_space_id : Option String)
    (m : SyncMapping) (content : List Char) (e : String) (rev : Int)
    (tail : List (Except String Int))
    (hmap : get_mapping st local_path = some m)
    (hfile : fs local_path = some content)
    (h₁ : env₁.docGetResults = Except.error e :: tail)
    (h₂ : env₂.docGetResults = Except.ok rev :: tail)
    (hbe : env₁.blocks = env₂.blocks)
    (hnc : detect sha fs m rev ≠ ConflictType.BOTH_CHANGED) :
    sync_to_lark env₁ conv sha now st fs local_path document_id folder_token
        wiki_space_id false {} =
      sync_to_lark env₂ conv sha now st fs local_path document_id folder_token
        wiki_space_id false {} := by
  rw [sync_to_lark, sync_to_lark, hfile]
  dsimp only
  rw [hmap]
  dsimp only
  simp only [Bool.false_eq_true, if_false, docGetCall, h₁, h₂, List.getD_cons_zero]
  rw [if_neg hnc]
  exact pushBody_env_congr env₁ env₂ conv sha now st local_path content (some m)
    (document_id.getD m.lark_document_id) folder_token wiki_space_id _ hbe
    (by
      intro k hk
      obtain ⟨k', rfl⟩ : ∃ k', k = k' + 1 := ⟨k - 1, by omega⟩
      rw [h₁, h₂, List.getD_cons_succ, List.getD_cons_succ])
    (by simp)

/-- Witness for C10: the failing-fetch run and the non-conflicting run
coincide at a concrete mapping, file and oracle pair. -/
theorem C10_witness :
    sync_to_lark env1W (fun _ => []) shaW 0 st0W fsW "p1" none none none false {} =
      sync_to_lark env2W (fun _ => []) shaW 0 st0W fsW "p1" none none none false {} :=
  C10_conflict_fetch_failure_swallowed env1W env2W (fun _ => []) shaW 0 st0W fsW "p1"
    none none none m0W ['a'] "boom" 5 [Except.ok 6]
    (by decide) (by decide) rfl rfl rfl (by decide)

end LarkSync
